import Mathlib

/-!
# cloudpipe front door: configuration loading

A shallow embedding of `frontdoor/context.go`: the `Settings` record, the
`Context.Load` method that fills it from the process environment, and the
library routines `Load` calls (`envconfig.Process`, `strconv.ParseInt`,
`strconv.ParseBool`, `path.Join`, `logrus.ParseLevel`).

Go strings are modelled by Lean strings.  The process environment is a map from
variable names to optional values; `os.Getenv` returns the empty string for a
variable that is not set.  The result of `user.Current()` is an input of `Load`.
A method with a pointer receiver that returns `error` is modelled by a function
returning the receiver's final state together with the optional error.
-/

namespace Cloudpipe

/-! ## Data model -/

/-- Settings contains configuration options loaded from the environment
(`context.go`, lines 20-36). -/
structure Settings where
  Port : Int
  LogLevel : String
  MongoURL : String
  AdminName : String
  AdminKey : String
  DockerHost : String
  DockerTLS : Bool
  DockerCACert : String
  DockerCert : String
  DockerKey : String
  Image : String
  Poll : Int
  Web : Bool
  Runner : Bool
  deriving DecidableEq, Repr

/-- The zero value of `Settings`, as in `c := Context{}`. -/
def Settings.zero : Settings :=
  { Port := 0, LogLevel := "", MongoURL := "", AdminName := "", AdminKey := "",
    DockerHost := "", DockerTLS := false, DockerCACert := "", DockerCert := "",
    DockerKey := "", Image := "", Poll := 0, Web := false, Runner := false }

/-- The process environment: each variable name is unset (`none`) or set to a string. -/
abbrev Env := String → Option String

/-- Model of `os.Getenv`: the value of the variable, empty when it is not set. -/
def Getenv (env : Env) (key : String) : String :=
  (env key).getD ""

/-- The environment in which no variable is set. -/
def Env.empty : Env := fun _ => none

/-- Model of `os.Setenv` on the environment map. -/
def Env.set (env : Env) (key value : String) : Env :=
  fun k => if k = key then some value else env k

/-! ## strconv -/

/-- The two error causes of `strconv` number parsing, and the invalid-base error. -/
inductive NumError where
  | ErrSyntax
  | ErrRange
  | ErrBase
  deriving DecidableEq, Repr

/-- Modelled from the spec: the "native type coercion" of a boolean field, which
is `strconv.ParseBool` of the Go standard library and not part of the
repository.  As the library documents, it accepts 1, t, T, TRUE, true, True and
0, f, F, FALSE, false, False, and rejects every other string. -/
def ParseBool (str : String) : Except NumError Bool :=
  if str ∈ ["1", "t", "T", "TRUE", "true", "True"] then .ok true
  else if str ∈ ["0", "f", "F", "FALSE", "false", "False"] then .ok false
  else .error .ErrSyntax

/-- The value of one digit in `strconv.ParseUint`: `0-9`, `a-z`, `A-Z`. -/
def digitVal (d : Char) : Option Nat :=
  if '0' ≤ d ∧ d ≤ '9' then some (d.toNat - '0'.toNat)
  else if 'a' ≤ d ∧ d ≤ 'z' then some (d.toNat - 'a'.toNat + 10)
  else if 'A' ≤ d ∧ d ≤ 'Z' then some (d.toNat - 'A'.toNat + 10)
  else none

/-- The smallest number `n` such that `n * base` overflows 64 bits
(`cutoff64` of package strconv). -/
def cutoff64 (base : Nat) : Nat :=
  if base < 2 then 0 else (2 ^ 64 - 1) / base + 1

/-- The digit loop of `strconv.ParseUint`: accumulates `n` over the remaining
digits, failing on a character that is not a digit of the base and on overflow
of 64 bits or of `bitSize` bits. -/
def parseUintLoop (base bitSize : Nat) : List Char → Nat → Except NumError Nat
  | [], n => .ok n
  | d :: rest, n =>
    match digitVal d with
    | none => .error .ErrSyntax
    | some v =>
      if v ≥ base then .error .ErrSyntax
      else if n ≥ cutoff64 base then .error .ErrRange
      else
        let n0 := (n * base) % 2 ^ 64
        let n1 := (n0 + v) % 2 ^ 64
        if n1 < n0 ∨ n1 > 2 ^ bitSize - 1 then .error .ErrRange
        else parseUintLoop base bitSize rest n1

/-- Modelled from the spec: the unsigned part of the "native type coercion" of an
integer field, which is `strconv.ParseUint` of the Go standard library and not
part of the repository; it follows the library of the Go releases of the
repository's time.  With base 0 the base is taken from the string: `0x` or `0X`
announces base 16, a leading `0` base 8, anything else base 10. -/
def ParseUint (s : List Char) (base bitSize : Nat) : Except NumError Nat :=
  match s with
  | [] => .error .ErrSyntax
  | c0 :: tl =>
    if 2 ≤ base ∧ base ≤ 36 then parseUintLoop base bitSize s 0
    else if base = 0 then
      match c0, tl with
      | '0', c1 :: tl2 =>
        if c1 = 'x' ∨ c1 = 'X' then
          (if tl2 = [] then .error .ErrSyntax else parseUintLoop 16 bitSize tl2 0)
        else parseUintLoop 8 bitSize s 0
      | '0', [] => parseUintLoop 8 bitSize s 0
      | _, _ => parseUintLoop 10 bitSize s 0
    else .error .ErrBase

/-- Modelled from the spec: the "native type coercion" of an integer field, which
is `strconv.ParseInt` of the Go standard library and not part of the repository:
an optional sign followed by an unsigned number, which must fit a signed integer
of `bitSize` bits. -/
def ParseInt (str : String) (base bitSize : Nat) : Except NumError Int :=
  match str.data with
  | [] => .error .ErrSyntax
  | c0 :: tl =>
    let neg := c0 = '-'
    let s := if c0 = '+' ∨ c0 = '-' then tl else c0 :: tl
    match ParseUint s base bitSize with
    | .error .ErrRange => .error .ErrRange
    | .error e => .error e
    | .ok un =>
      let cutoff := 2 ^ (bitSize - 1)
      if ¬ neg ∧ un ≥ cutoff then .error .ErrRange
      else if neg ∧ un > cutoff then .error .ErrRange
      else .ok (if neg then - (un : Int) else (un : Int))

/-- The size in bits of the Go type `int` (`reflect.Type.Bits`) on a 64-bit platform. -/
def intBits : Nat := 64

/-! ## envconfig -/

/-- The fields of `Settings`, in declaration order (the struct's reflection view). -/
inductive Field where
  | Port | LogLevel | MongoURL | AdminName | AdminKey | DockerHost | DockerTLS
  | DockerCACert | DockerCert | DockerKey | Image | Poll | Web | Runner
  deriving DecidableEq, Repr

/-- The kinds of the fields of `Settings` (`reflect.Kind`). -/
inductive Kind where
  | string | int | bool
  deriving DecidableEq, Repr

/-- A value that can be stored in a field of `Settings`. -/
inductive Value where
  | str (s : String)
  | int (i : Int)
  | bool (b : Bool)
  deriving DecidableEq, Repr

/-- All fields in declaration order: the index range of the reflection loop. -/
def Field.all : List Field :=
  [.Port, .LogLevel, .MongoURL, .AdminName, .AdminKey, .DockerHost, .DockerTLS,
   .DockerCACert, .DockerCert, .DockerKey, .Image, .Poll, .Web, .Runner]

/-- The Go name of a field. -/
def Field.name : Field → String
  | .Port => "Port"
  | .LogLevel => "LogLevel"
  | .MongoURL => "MongoURL"
  | .AdminName => "AdminName"
  | .AdminKey => "AdminKey"
  | .DockerHost => "DockerHost"
  | .DockerTLS => "DockerTLS"
  | .DockerCACert => "DockerCACert"
  | .DockerCert => "DockerCert"
  | .DockerKey => "DockerKey"
  | .Image => "Image"
  | .Poll => "Poll"
  | .Web => "Web"
  | .Runner => "Runner"

/-- The kind of a field, from its declared type. -/
def Field.kind : Field → Kind
  | .Port | .Poll => .int
  | .DockerTLS | .Web | .Runner => .bool
  | _ => .string

/-- Reading a field by reflection. -/
def Settings.get (s : Settings) : Field → Value
  | .Port => .int s.Port
  | .LogLevel => .str s.LogLevel
  | .MongoURL => .str s.MongoURL
  | .AdminName => .str s.AdminName
  | .AdminKey => .str s.AdminKey
  | .DockerHost => .str s.DockerHost
  | .DockerTLS => .bool s.DockerTLS
  | .DockerCACert => .str s.DockerCACert
  | .DockerCert => .str s.DockerCert
  | .DockerKey => .str s.DockerKey
  | .Image => .str s.Image
  | .Poll => .int s.Poll
  | .Web => .bool s.Web
  | .Runner => .bool s.Runner

/-- Writing a field by reflection (`SetString`, `SetInt`, `SetBool`); a value of
another kind than the field's is never passed and leaves the record unchanged. -/
def Settings.set (s : Settings) : Field → Value → Settings
  | .Port, .int i => { s with Port := i }
  | .LogLevel, .str v => { s with LogLevel := v }
  | .MongoURL, .str v => { s with MongoURL := v }
  | .AdminName, .str v => { s with AdminName := v }
  | .AdminKey, .str v => { s with AdminKey := v }
  | .DockerHost, .str v => { s with DockerHost := v }
  | .DockerTLS, .bool b => { s with DockerTLS := b }
  | .DockerCACert, .str v => { s with DockerCACert := v }
  | .DockerCert, .str v => { s with DockerCert := v }
  | .DockerKey, .str v => { s with DockerKey := v }
  | .Image, .str v => { s with Image := v }
  | .Poll, .int i => { s with Poll := i }
  | .Web, .bool b => { s with Web := b }
  | .Runner, .bool b => { s with Runner := b }
  | _, _ => s

/-- The error of `envconfig.Process` when a value cannot be converted. -/
structure ParseError where
  FieldName : String
  TypeName : String
  Value : String
  deriving DecidableEq, Repr

/-- The environment variable of a field:
`strings.ToUpper(fmt.Sprintf("%s_%s", prefix, fieldName))`. -/
def envKey (pfx fieldName : String) : String :=
  String.mk ((pfx ++ "_" ++ fieldName).data.map Char.toUpper)

/-- The conversion of a non-empty variable value to the field's kind (the
`switch f.Kind()` of `envconfig.Process`); `none` when the value does not parse. -/
def convert (k : Kind) (value : String) : Option Value :=
  match k with
  | .string => some (.str value)
  | .int =>
    match ParseInt value 0 intBits with
    | .ok i => some (.int i)
    | .error _ => none
  | .bool =>
    match ParseBool value with
    | .ok b => some (.bool b)
    | .error _ => none

/-- The name of a kind (`reflect.Kind.String`). -/
def Kind.typeName : Kind → String
  | .string => "string"
  | .int => "int"
  | .bool => "bool"

/-- One iteration of the loop of `envconfig.Process`: an empty or unset variable
is skipped, any other value is converted and stored, and a value that does not
convert is a `ParseError`. -/
def processField (pfx : String) (env : Env) (s : Settings) (f : Field) :
    Except ParseError Settings :=
  let value := Getenv env (envKey pfx f.name)
  if value = "" then .ok s
  else
    match convert f.kind value with
    | some v => .ok (s.set f v)
    | none => .error { FieldName := f.name, TypeName := f.kind.typeName, Value := value }

/-- The loop of `envconfig.Process` over the remaining fields: it stops at the
first field that fails, keeping what was stored before. -/
def processLoop (pfx : String) (env : Env) : List Field → Settings → Settings × Option ParseError
  | [], s => (s, none)
  | f :: fs, s =>
    match processField pfx env s f with
    | .error e => (s, some e)
    | .ok s1 => processLoop pfx env fs s1

/-- Modelled from the spec: `envconfig.Process` of the library
github.com/kelseyhightower/envconfig, which the repository imports and does not
contain: the "direct load" that populates every field from the variable named
by the prefix and the field, with native type coercion per field, and leaves a
field whose variable is absent or empty as it was. -/
def Process (pfx : String) (env : Env) (spec : Settings) : Settings × Option ParseError :=
  processLoop pfx env Field.all spec

/-! ## path -/

/-- The output buffer of `path.Clean`, element by element: the number of `..`
elements it starts with (the part below the `dotdot` mark) and the names written
after them, the last one first. -/
structure CleanState where
  dotdot : Nat
  names : List (List Char)
  deriving DecidableEq, Repr

/-- One step of the loop of `path.Clean`.  The loop reads the path one
`/`-separated element at a time: an empty element and `.` are dropped, `..`
removes the last name when there is one (`out.w > dotdot`) and is otherwise kept
on a path that is not rooted, and any other element is appended. -/
def cleanStep (rooted : Bool) (st : CleanState) (el : List Char) : CleanState :=
  if el = [] then st
  else if el = ['.'] then st
  else if el = ['.', '.'] then
    match st.names with
    | _ :: rest => { st with names := rest }
    | [] => if rooted then st else { st with dotdot := st.dotdot + 1 }
  else { st with names := el :: st.names }

/-- The contents of the output buffer of `path.Clean`: the elements separated by
`/`, after the leading `/` of a rooted path; an empty buffer is returned as `.`. -/
def cleanRender (rooted : Bool) (st : CleanState) : List Char :=
  let elems := List.replicate st.dotdot ['.', '.'] ++ st.names.reverse
  if rooted then '/' :: ['/'].intercalate elems
  else if elems = [] then ['.']
  else ['/'].intercalate elems

/-- Whether a path starts with `/`. -/
def isRooted (p : List Char) : Bool :=
  p.head? = some '/'

/-- The function `path.Clean` on the characters of a path. -/
def cleanChars (p : List Char) : List Char :=
  if p = [] then ['.']
  else cleanRender (isRooted p) ((p.splitOn '/').foldl (cleanStep (isRooted p)) ⟨0, []⟩)

/-- Modelled from the spec: `path.Clean` of the Go standard library, which is not
part of the repository and which `path.Join` applies to build the paths
`<root>/<file>` of the spec: the shortest path name equivalent to `path` by
purely lexical processing, as the library documents it. -/
def Clean (path : String) : String :=
  String.mk (cleanChars path.data)

/-- Modelled from the spec: the path `<root>/<file>` of the spec, which is
`path.Join` of the Go standard library and not part of the repository: the
elements from the first non-empty one on are joined with `/` and the result is
cleaned; when all elements are empty the result is empty. -/
def Join : List String → String
  | [] => ""
  | e :: rest => if e ≠ "" then Clean ("/".intercalate (e :: rest)) else Join rest

/-- The part of a path up to and including its last `/` (the `dir` of
`path.Split`); it is empty when the path holds no `/`. -/
def dirPart (p : List Char) : List Char :=
  (p.reverse.dropWhile (fun c => c ≠ '/')).reverse

/-- Modelled from the spec: the "parent directory" of a path, which is `path.Dir`
of the Go standard library and not part of the repository: the path up to and
including its last `/`, cleaned. -/
def Dir (path : String) : String :=
  Clean (String.mk (dirPart path.data))

/-! ## logrus -/

/-- The severity levels of the logger. -/
inductive Level where
  | PanicLevel | FatalLevel | ErrorLevel | WarnLevel | InfoLevel | DebugLevel | TraceLevel
  deriving DecidableEq, Repr

/-- The names of the fixed severity enum of the specification. -/
def levelNames : List String :=
  ["trace", "debug", "info", "warn", "error", "fatal", "panic"]

/-- Modelled from the spec: `ParseLevel` of the logging library
github.com/Sirupsen/logrus, which the repository imports and does not contain:
the string is parsed against the fixed severity enum
trace/debug/info/warn/error/fatal/panic, and a string that matches no
recognised level is an error naming the offending value. -/
def ParseLevel (lvl : String) : Except String Level :=
  if lvl = "panic" then .ok .PanicLevel
  else if lvl = "fatal" then .ok .FatalLevel
  else if lvl = "error" then .ok .ErrorLevel
  else if lvl = "warn" then .ok .WarnLevel
  else if lvl = "info" then .ok .InfoLevel
  else if lvl = "debug" then .ok .DebugLevel
  else if lvl = "trace" then .ok .TraceLevel
  else .error lvl

/-! ## Context.Load -/

/-- The part of `user.User` that `Load` reads. -/
structure OSUser where
  HomeDir : String
  deriving DecidableEq, Repr

/-- The errors that `Load` returns. -/
inductive LoadError where
  /-- The error of `envconfig.Process`. -/
  | envconfig (e : ParseError)
  /-- The error `"Unable to read the current OS user: %v"` wrapping the cause. -/
  | osUser (cause : String)
  /-- The error of `log.ParseLevel` for the named level. -/
  | logLevel (lvl : String)
  /-- The error `"You must enable either RHO_WEB or RHO_RUNNER!"`. -/
  | mode
  deriving DecidableEq, Repr

/-- The text of an error created by `Load` itself (`fmt.Errorf`, `errors.New`). -/
def LoadError.text : LoadError → Option String
  | .osUser cause => some ("Unable to read the current OS user: " ++ cause)
  | .mode => some "You must enable either RHO_WEB or RHO_RUNNER!"
  | _ => none

/-- The certificate root of `Load` (lines 107-115): `DOCKER_CERT_PATH` when it is
not empty, otherwise `.docker` under the home directory of the current user,
whose lookup can fail. -/
def certRoot (env : Env) (current : Except String OSUser) : Except LoadError String :=
  let root := Getenv env "DOCKER_CERT_PATH"
  if root = "" then
    match current with
    | .error err => .error (.osUser err)
    | .ok user => .ok (Join [user.HomeDir, ".docker"])
  else .ok root

/-- The defaults of `Load` that need only the environment (lines 83-105): port,
log level, MongoDB URL, polling interval and Docker host, each applied when the
field is still at its zero value. -/
def applyDefaults (env : Env) (c : Settings) : Settings :=
  let c := if c.Port = 0 then { c with Port := 8000 } else c
  let c := if c.LogLevel = "" then { c with LogLevel := "info" } else c
  let c := if c.MongoURL = "" then { c with MongoURL := "mongo" } else c
  let c := if c.Poll = 0 then { c with Poll := 500 } else c
  if c.DockerHost = "" then
    if Getenv env "DOCKER_HOST" ≠ "" then { c with DockerHost := Getenv env "DOCKER_HOST" }
    else { c with DockerHost := "unix:///var/run/docker.sock" }
  else c

/-- The defaults of `Load` applied once the certificate root is known (lines
117-131): the three certificate paths and the image. -/
def applyCertDefaults (root : String) (c : Settings) : Settings :=
  let c := if c.DockerCACert = "" then { c with DockerCACert := Join [root, "ca.pem"] } else c
  let c := if c.DockerCert = "" then { c with DockerCert := Join [root, "cert.pem"] } else c
  let c := if c.DockerKey = "" then { c with DockerKey := Join [root, "key.pem"] } else c
  if c.Image = "" then { c with Image := "cloudpipe/runner-py2" } else c

/-- The end of `Load` (lines 137-146): if neither web nor runner are explicitly
enabled, enable both, unless both variables are present in the environment. -/
def checkModes (env : Env) (c : Settings) : Settings × Option LoadError :=
  if !c.Web && !c.Runner then
    if Getenv env "RHO_WEB" ≠ "" ∧ Getenv env "RHO_RUNNER" ≠ "" then (c, some .mode)
    else ({ c with Web := true, Runner := true }, none)
  else (c, none)

/-- The method `Context.Load` (lines 78-147): load configuration settings from the
environment, apply defaults, and validate them.  `env` is the process
environment, `current` the result of `user.Current()`, `c` the settings of the
receiver on entry; the result is the settings of the receiver on return and the
error returned. -/
def Load (env : Env) (current : Except String OSUser) (c : Settings) :
    Settings × Option LoadError :=
  match Process "RHO" env c with
  | (c, some err) => (c, some (.envconfig err))
  | (c, none) =>
    let c := applyDefaults env c
    match certRoot env current with
    | .error err => (c, some err)
    | .ok root =>
      let c := applyCertDefaults root c
      match ParseLevel c.LogLevel with
      | .error lvl => (c, some (.logLevel lvl))
      | .ok _ => checkModes env c

/-! ## Closed forms used in the proofs -/

deriving instance DecidableEq for Except

/-- Whether a result is a success can be decided. -/
instance exceptOkDecidable {ε α : Type} (e : Except ε α) : Decidable (∃ a, e = .ok a) :=
  match e with
  | .ok a => isTrue ⟨a, rfl⟩
  | .error _ => isFalse (by rintro ⟨a, h⟩; cases h)

/-- The value of the variable of field `f`. -/
def fieldValue (pfx : String) (env : Env) (f : Field) : String :=
  Getenv env (envKey pfx f.name)

/-- The variable of field `f` is empty or converts to the kind of `f`. -/
def fieldOK (pfx : String) (env : Env) (f : Field) : Prop :=
  fieldValue pfx env f = "" ∨ (convert f.kind (fieldValue pfx env f)).isSome

instance (pfx : String) (env : Env) (f : Field) : Decidable (fieldOK pfx env f) := by
  unfold fieldOK; infer_instance

/-- The content of field `f` after the direct load, from its content `cur` before. -/
def loaded (pfx : String) (env : Env) (f : Field) (cur : Value) : Value :=
  if fieldValue pfx env f = "" then cur
  else (convert f.kind (fieldValue pfx env f)).getD cur

/-- The content of a string field after the direct load: the value of its
variable, or its previous content `cur` when the variable is empty or unset. -/
def strOr (value cur : String) : String :=
  if value = "" then cur else value

/-- The content of an integer field after a direct load that succeeds. -/
def intOr (value : String) (cur : Int) : Int :=
  if value = "" then cur
  else
    match ParseInt value 0 intBits with
    | .ok i => i
    | .error _ => cur

/-- The content of a boolean field after a direct load that succeeds. -/
def boolOr (value : String) (cur : Bool) : Bool :=
  if value = "" then cur
  else
    match ParseBool value with
    | .ok b => b
    | .error _ => cur

/-- The value of the variable of an integer field is accepted by the direct load. -/
def intOK (value : String) : Prop :=
  value = "" ∨ ∃ i, ParseInt value 0 intBits = .ok i

/-- The value of the variable of a boolean field is accepted by the direct load. -/
def boolOK (value : String) : Prop :=
  value = "" ∨ ∃ b, ParseBool value = .ok b

/-- The settings after a direct load that succeeds, in closed form. -/
def direct (env : Env) (c : Settings) : Settings :=
  { Port := intOr (Getenv env "RHO_PORT") c.Port
    LogLevel := strOr (Getenv env "RHO_LOGLEVEL") c.LogLevel
    MongoURL := strOr (Getenv env "RHO_MONGOURL") c.MongoURL
    AdminName := strOr (Getenv env "RHO_ADMINNAME") c.AdminName
    AdminKey := strOr (Getenv env "RHO_ADMINKEY") c.AdminKey
    DockerHost := strOr (Getenv env "RHO_DOCKERHOST") c.DockerHost
    DockerTLS := boolOr (Getenv env "RHO_DOCKERTLS") c.DockerTLS
    DockerCACert := strOr (Getenv env "RHO_DOCKERCACERT") c.DockerCACert
    DockerCert := strOr (Getenv env "RHO_DOCKERCERT") c.DockerCert
    DockerKey := strOr (Getenv env "RHO_DOCKERKEY") c.DockerKey
    Image := strOr (Getenv env "RHO_IMAGE") c.Image
    Poll := intOr (Getenv env "RHO_POLL") c.Poll
    Web := boolOr (Getenv env "RHO_WEB") c.Web
    Runner := boolOr (Getenv env "RHO_RUNNER") c.Runner }

/-- The direct load succeeds: the variables of the two integer fields and of the
three boolean fields are empty or parse. -/
def directOK (env : Env) : Prop :=
  intOK (Getenv env "RHO_PORT") ∧ boolOK (Getenv env "RHO_DOCKERTLS") ∧
    intOK (Getenv env "RHO_POLL") ∧ boolOK (Getenv env "RHO_WEB") ∧
    boolOK (Getenv env "RHO_RUNNER")

/-- The variable of each field under the prefix `RHO`. -/
def Field.rhoKey : Field → String
  | .Port => "RHO_PORT"
  | .LogLevel => "RHO_LOGLEVEL"
  | .MongoURL => "RHO_MONGOURL"
  | .AdminName => "RHO_ADMINNAME"
  | .AdminKey => "RHO_ADMINKEY"
  | .DockerHost => "RHO_DOCKERHOST"
  | .DockerTLS => "RHO_DOCKERTLS"
  | .DockerCACert => "RHO_DOCKERCACERT"
  | .DockerCert => "RHO_DOCKERCERT"
  | .DockerKey => "RHO_DOCKERKEY"
  | .Image => "RHO_IMAGE"
  | .Poll => "RHO_POLL"
  | .Web => "RHO_WEB"
  | .Runner => "RHO_RUNNER"

/-- The settings after the defaults, from the settings on entry, when the direct
load succeeds and the certificate root is `root`. -/
def resolved (env : Env) (root : String) (c : Settings) : Settings :=
  applyCertDefaults root (applyDefaults env (direct env c))

/-- The value of an integer field after its default. -/
def intDefault (i def_ : Int) : Int :=
  if i = 0 then def_ else i

/-- The value of a string field after its default. -/
def strDefault (s def_ : String) : String :=
  if s = "" then def_ else s

/-- The mode conflict of `Load`: neither mode is enabled after the direct load
and both mode variables are set to a non-empty string. -/
def modeConflict (env : Env) (c : Settings) : Prop :=
  boolOr (Getenv env "RHO_WEB") c.Web = false ∧ boolOr (Getenv env "RHO_RUNNER") c.Runner = false ∧
    Getenv env "RHO_WEB" ≠ "" ∧ Getenv env "RHO_RUNNER" ≠ ""

instance (env : Env) (c : Settings) : Decidable (modeConflict env c) := by
  unfold modeConflict; infer_instance

instance (value : String) : Decidable (intOK value) := by
  unfold intOK; infer_instance

instance (value : String) : Decidable (boolOK value) := by
  unfold boolOK; infer_instance

instance (env : Env) : Decidable (directOK env) := by
  unfold directOK; infer_instance

/-- The settings that a successful `Load` leaves, in closed form, from the
environment, the certificate root and the settings on entry. -/
def final (env : Env) (root : String) (c : Settings) : Settings :=
  { Port := intDefault (intOr (Getenv env "RHO_PORT") c.Port) 8000
    LogLevel := strDefault (strOr (Getenv env "RHO_LOGLEVEL") c.LogLevel) "info"
    MongoURL := strDefault (strOr (Getenv env "RHO_MONGOURL") c.MongoURL) "mongo"
    AdminName := strOr (Getenv env "RHO_ADMINNAME") c.AdminName
    AdminKey := strOr (Getenv env "RHO_ADMINKEY") c.AdminKey
    DockerHost := strDefault (strOr (Getenv env "RHO_DOCKERHOST") c.DockerHost)
      (strDefault (Getenv env "DOCKER_HOST") "unix:///var/run/docker.sock")
    DockerTLS := boolOr (Getenv env "RHO_DOCKERTLS") c.DockerTLS
    DockerCACert := strDefault (strOr (Getenv env "RHO_DOCKERCACERT") c.DockerCACert)
      (Join [root, "ca.pem"])
    DockerCert := strDefault (strOr (Getenv env "RHO_DOCKERCERT") c.DockerCert)
      (Join [root, "cert.pem"])
    DockerKey := strDefault (strOr (Getenv env "RHO_DOCKERKEY") c.DockerKey)
      (Join [root, "key.pem"])
    Image := strDefault (strOr (Getenv env "RHO_IMAGE") c.Image) "cloudpipe/runner-py2"
    Poll := intDefault (intOr (Getenv env "RHO_POLL") c.Poll) 500
    Web := boolOr (Getenv env "RHO_WEB") c.Web ||
      !boolOr (Getenv env "RHO_RUNNER") c.Runner
    Runner := boolOr (Getenv env "RHO_RUNNER") c.Runner ||
      !boolOr (Getenv env "RHO_WEB") c.Web }

/-! ## Path elements -/

/-- A name: a path element that `path.Clean` appends to its output, that is, one
that is not empty, not `.`, not `..` and holds no `/`. -/
def IsName (el : List Char) : Prop :=
  el ≠ [] ∧ el ≠ ['.'] ∧ el ≠ ['.', '.'] ∧ '/' ∉ el

instance (el : List Char) : Decidable (IsName el) := by
  unfold IsName; infer_instance

/-- The names in the output buffer of `path.Clean` are names, and the buffer of a
rooted path starts with no `..` element. -/
def CleanInv (rooted : Bool) (st : CleanState) : Prop :=
  (∀ n ∈ st.names, IsName n) ∧ (rooted = true → st.dotdot = 0)

/-- The state of `path.Clean` after the elements of the path `p`. -/
def cleanState (p : List Char) : CleanState :=
  (p.splitOn '/').foldl (cleanStep (isRooted p)) ⟨0, []⟩

/-! ## Textual forms of values -/

/-- The decimal digit of a number below ten. -/
def digitChar (d : Nat) : Char := Char.ofNat (48 + d)

/-- The digit loop of `strconv.FormatUint` in base 10: the last digit of `n` is
put in front of the digits written so far, until `n` is below ten. -/
def decimalDigits : Nat → Nat → List Char → List Char
  | 0, _, acc => acc
  | fuel + 1, n, acc =>
    if n < 10 then digitChar n :: acc
    else decimalDigits fuel (n / 10) (digitChar (n % 10) :: acc)

/-- The decimal representation of a natural number. -/
def formatUint (n : Nat) : List Char :=
  decimalDigits (n + 1) n []

/-- The textual form of an integer: its decimal representation, as written by
`strconv.Itoa`. -/
def formatInt (i : Int) : String :=
  if i < 0 then String.mk ('-' :: formatUint i.natAbs) else String.mk (formatUint i.natAbs)

/-- The textual form of a boolean, as written by `strconv.FormatBool`. -/
def formatBool (b : Bool) : String :=
  if b then "true" else "false"

/-- The textual form of a value of a field. -/
def Value.text : Value → String
  | .str s => s
  | .int i => formatInt i
  | .bool b => formatBool b

/-- The kind of a value. -/
def Value.kind : Value → Kind
  | .str _ => .string
  | .int _ => .int
  | .bool _ => .bool

/-- The number that a list of decimal digits denotes, continuing from `m`. -/
def digitsValue (m : Nat) (ds : List Char) : Nat :=
  ds.foldl (fun a c => a * 10 + (c.toNat - 48)) m

/-- A decimal digit. -/
def IsDigit (c : Char) : Prop :=
  ∃ d, d < 10 ∧ c = digitChar d

/-- The value is one of the Go type of its kind: an integer fits the type `int`. -/
def Value.inRange : Value → Prop
  | .int i => -2 ^ 63 ≤ i ∧ i < 2 ^ 63
  | _ => True

/-- The value is the zero value of its type: 0, the empty string, false. -/
def Value.isZero : Value → Prop
  | .int i => i = 0
  | .str s => s = ""
  | .bool b => b = false

/-- Whether a successful `Load` keeps the zero value of a field that the direct
load stored: always for `AdminName`, `AdminKey` and `DockerTLS`, which have no
default; for a mode, when the variable of the other mode is not empty, so that
the other mode is enabled; never for the fields that have a default or a
fallback. -/
def Field.zeroKept (env : Env) : Field → Prop
  | .AdminName | .AdminKey | .DockerTLS => True
  | .Web => Getenv env "RHO_RUNNER" ≠ ""
  | .Runner => Getenv env "RHO_WEB" ≠ ""
  | _ => False

instance (env : Env) (f : Field) : Decidable (f.zeroKept env) := by
  cases f <;> unfold Field.zeroKept <;> infer_instance

instance (v : Value) : Decidable v.inRange := by
  cases v <;> unfold Value.inRange <;> infer_instance

instance (v : Value) : Decidable v.isZero := by
  cases v <;> unfold Value.isZero <;> infer_instance

/-! ## Concrete environments -/

/-- A user lookup that succeeds, with home directory `/home/rho`. -/
def homeUser : Except String OSUser := .ok { HomeDir := "/home/rho" }

/-- Both mode variables set to a false-equivalent value. -/
def envBothOff : Env := (Env.empty.set "RHO_WEB" "false").set "RHO_RUNNER" "0"

/-- The environment of the test `TestOnlyWeb`. -/
def envOnlyWeb : Env := (Env.empty.set "RHO_WEB" "true").set "RHO_RUNNER" ""

/-- The environment of the test `TestValidateLogLevel`. -/
def envWalrus : Env := Env.empty.set "RHO_LOGLEVEL" "Walrus"

/-- The environment of the test `TestUseDockerHost`. -/
def envDockerHost : Env := (Env.empty.set "RHO_DOCKERHOST" "").set "DOCKER_HOST" "tcp://1.2.3.4:4567/"

/-- A negative port. -/
def envNegativePort : Env := Env.empty.set "RHO_PORT" "-1"

/-- A port and a polling interval configured as zero. -/
def envZeroPort : Env := (Env.empty.set "RHO_PORT" "0").set "RHO_POLL" "0"

/-- The variables that the test `TestDefaultValues` clears and `Load` reads. -/
def defaultVars : List String :=
  ["RHO_PORT", "RHO_LOGLEVEL", "RHO_MONGOURL", "RHO_ADMINNAME", "RHO_ADMINKEY", "RHO_POLL",
   "RHO_DOCKERHOST", "RHO_DOCKERTLS", "RHO_DOCKERCACERT", "RHO_DOCKERCERT", "RHO_DOCKERKEY",
   "RHO_IMAGE", "RHO_WEB", "RHO_RUNNER", "DOCKER_HOST", "DOCKER_CERT_PATH"]

/-- An environment with a certificate directory and one explicit certificate path. -/
def envCertPath : Env :=
  (Env.empty.set "DOCKER_CERT_PATH" "/certs").set "RHO_DOCKERKEY" "/lockbox/key.pem"


/-- An explicit port, as in the test `TestLoadFromEnvironment`. -/
def envPort : Env := Env.empty.set "RHO_PORT" "1234"

/-- The web mode explicitly disabled and the runner mode not configured. -/
def envWebOff : Env := Env.empty.set "RHO_WEB" "false"

/-- The web mode explicitly disabled and the runner mode explicitly enabled. -/
def envWebOffRunnerOn : Env := (Env.empty.set "RHO_WEB" "false").set "RHO_RUNNER" "true"

/-! ## Context.ListenAddr -/

/-- The method `Context.ListenAddr` (lines 149-152): generates an address to bind
the net/http server to, `fmt.Sprintf(":%d", c.Port)`.  The verb `%d` writes the
decimal digits of the integer, after a `-` when it is negative, as
`strconv.Itoa` does.  The result is the settings of the receiver on return and
the string. -/
def ListenAddr (c : Settings) : Settings × String :=
  (c, ":" ++ formatInt c.Port)

/-- The decimal representation of an integer, in the words of the
specification: a `-` for a negative integer, then the decimal digits of its
absolute value, the most significant first, a single `0` for zero.  The digits
are those of `Nat.digits`, written with the characters `0` to `9` of
`Nat.digitChar`; nothing here is shared with `ListenAddr`. -/
def decimalRepr (p : Int) : String :=
  (if p < 0 then "-" else "") ++
    String.mk (if p = 0 then ['0'] else ((Nat.digits 10 p.natAbs).reverse.map Nat.digitChar))

/-! ## Situations of the mode variables -/

/-- Both modes are explicitly disabled: `RHO_WEB` and `RHO_RUNNER` both hold a
false-equivalent value. -/
def bothDisabled (env : Env) : Prop :=
  ParseBool (Getenv env "RHO_WEB") = .ok false ∧ ParseBool (Getenv env "RHO_RUNNER") = .ok false

instance (env : Env) : Decidable (bothDisabled env) := by
  unfold bothDisabled; infer_instance

/-- A lone explicit false: one of `RHO_WEB` and `RHO_RUNNER` holds a
false-equivalent value and the other is unset or empty. -/
def loneFalse (env : Env) : Prop :=
  (ParseBool (Getenv env "RHO_WEB") = .ok false ∧ Getenv env "RHO_RUNNER" = "") ∨
  (ParseBool (Getenv env "RHO_RUNNER") = .ok false ∧ Getenv env "RHO_WEB" = "")

instance (env : Env) : Decidable (loneFalse env) := by
  unfold loneFalse; infer_instance

/-- The log level that `Load` checks on a zero-valued context: `RHO_LOGLEVEL`, or
`info` when it is unset or empty. -/
def resolvedLevel (env : Env) : String :=
  strDefault (Getenv env "RHO_LOGLEVEL") "info"

/-- A port that is not a number. -/
def envBadPort : Env := Env.empty.set "RHO_PORT" "abc"

/-- An explicit Docker host together with the fallback variable `DOCKER_HOST`. -/
def envHostBoth : Env :=
  (Env.empty.set "RHO_DOCKERHOST" "tcp://1.2.3.4:4567/").set "DOCKER_HOST" "tcp://10.0.0.1:2375/"

/-- A user lookup that fails. -/
def noUser : Except String OSUser := .error "user: Current not implemented"

/-! ## NewContext -/

/-- What `NewContext` does outside the context, in the order in which it does it. -/
inductive Event where
  /-- The summary `log.WithFields(...).Info("Initializing with loaded settings.")`. -/
  | Info (port : Int) (logLevel mongoURL adminName : String)
  /-- The call `log.SetLevel(level)`, which sets the process-wide log level. -/
  | SetLevel (level : Level)
  /-- The call `NewMongoStorage(c)`, which connects to the storage. -/
  | NewMongoStorage
  /-- The call `c.Storage.Bootstrap()`. -/
  | Bootstrap
  deriving DecidableEq, Repr

/-- The errors that `NewContext` returns: that of `Load`, that of `log.ParseLevel`,
that of `NewMongoStorage` and that of `Storage.Bootstrap`. -/
inductive ContextError where
  | load (err : LoadError)
  | parseLevel (lvl : String)
  | connect (err : String)
  | bootstrap (err : String)
  deriving DecidableEq, Repr

/-- Context provides shared state among individual route handlers (lines 14-18);
`σ` is the type of the storage. -/
structure Context (σ : Type) where
  Settings : Settings
  Storage : Option σ
  deriving DecidableEq, Repr

/-- The outcome of `NewContext`: the context and the error it returns, and the
calls it made. -/
structure NewContextResult (σ : Type) where
  c : Context σ
  err : Option ContextError
  events : List Event
  deriving DecidableEq, Repr

/-- The part of `NewContext` after a successful `Load` (lines 47-74): summarize the
loaded settings, configure the logging level, connect to MongoDB.  The functions
`NewMongoStorage` and `Storage.Bootstrap` are in files of the repository that are
not given; their results are the parameters `connect` and `bootstrap`. -/
def configure {σ : Type} (connect : Settings → Except String σ) (bootstrap : σ → Option String)
    (c : Settings) : NewContextResult σ :=
  let summary := Event.Info c.Port c.LogLevel c.MongoURL c.AdminName
  match ParseLevel c.LogLevel with
  | .error lvl => { c := ⟨c, none⟩, err := some (.parseLevel lvl), events := [summary] }
  | .ok level =>
    match connect c with
    | .error err =>
      { c := ⟨c, none⟩, err := some (.connect err),
        events := [summary, .SetLevel level, .NewMongoStorage] }
    | .ok storage =>
      match bootstrap storage with
      | some err =>
        { c := ⟨c, some storage⟩, err := some (.bootstrap err),
          events := [summary, .SetLevel level, .NewMongoStorage, .Bootstrap] }
      | none =>
        { c := ⟨c, some storage⟩, err := none,
          events := [summary, .SetLevel level, .NewMongoStorage, .Bootstrap] }

/-- The function `NewContext` (lines 38-75): loads the active configuration and
applies any immediate, global settings like the logging level. -/
def NewContext {σ : Type} (env : Env) (current : Except String OSUser)
    (connect : Settings → Except String σ) (bootstrap : σ → Option String) :
    NewContextResult σ :=
  match Load env current Settings.zero with
  | (c, some err) => { c := ⟨c, none⟩, err := some (.load err), events := [] }
  | (c, none) => configure connect bootstrap c

/-- The order of the calls of the orchestrator: the summary, the log level, the
storage connection, the storage bootstrap. -/
def callOrder (c : Settings) (level : Level) : List Event :=
  [.Info c.Port c.LogLevel c.MongoURL c.AdminName, .SetLevel level, .NewMongoStorage, .Bootstrap]

/-- A storage connection that succeeds, for a storage without content. -/
def connectOK : Settings → Except String Unit := fun _ => .ok ()

/-- A bootstrap that succeeds. -/
def bootstrapOK : Unit → Option String := fun _ => none

/-! ## The direct load and the case analysis of `Load` -/

theorem Settings.ext_get {s t : Settings} (h : ∀ f, s.get f = t.get f) : s = t := by
  have h1 := h .Port; have h2 := h .LogLevel; have h3 := h .MongoURL; have h4 := h .AdminName
  have h5 := h .AdminKey; have h6 := h .DockerHost; have h7 := h .DockerTLS
  have h8 := h .DockerCACert; have h9 := h .DockerCert; have h10 := h .DockerKey
  have h11 := h .Image; have h12 := h .Poll; have h13 := h .Web; have h14 := h .Runner
  cases s; cases t
  simp only [Settings.get, Value.int.injEq, Value.str.injEq, Value.bool.injEq] at *
  simp [*]

theorem get_set_of_ne (s : Settings) {f g : Field} (v : Value) (h : g ≠ f) :
    (s.set f v).get g = s.get g := by
  cases f <;> cases g <;> cases v <;> first | rfl | exact absurd rfl h

theorem get_set_convert (s : Settings) (f : Field) {value : String} {v : Value}
    (h : convert f.kind value = some v) : (s.set f v).get f = v := by
  cases f <;> simp only [Field.kind, convert] at h <;>
    first
    | (cases h; rfl)
    | (split at h <;> first | (cases h; rfl) | cases h)

theorem processField_ok {pfx : String} {env : Env} {s s1 : Settings} {f : Field}
    (h : processField pfx env s f = .ok s1) (g : Field) :
    s1.get g = if g = f then loaded pfx env f (s.get f) else s.get g := by
  unfold processField at h
  simp only at h
  by_cases hv : Getenv env (envKey pfx f.name) = ""
  · rw [if_pos hv] at h
    cases h
    by_cases hg : g = f
    · subst hg; simp [loaded, fieldValue, hv]
    · simp [hg]
  · rw [if_neg hv] at h
    cases hc : convert f.kind (Getenv env (envKey pfx f.name)) with
    | none => rw [hc] at h; cases h
    | some v =>
      rw [hc] at h
      cases h
      by_cases hg : g = f
      · subst hg
        simp [loaded, fieldValue, hv, hc, get_set_convert s g hc]
      · simp [hg, get_set_of_ne s v hg]

theorem processField_isOk (pfx : String) (env : Env) (s : Settings) (f : Field) :
    (∃ s1, processField pfx env s f = .ok s1) ↔ fieldOK pfx env f := by
  unfold processField fieldOK fieldValue
  simp only
  by_cases hv : Getenv env (envKey pfx f.name) = ""
  · simp [hv]
  · cases hc : convert f.kind (Getenv env (envKey pfx f.name)) <;> simp [hv, hc]

theorem processLoop_ok {pfx : String} {env : Env} :
    ∀ (fs : List Field) (s s1 : Settings), fs.Nodup → processLoop pfx env fs s = (s1, none) →
      ∀ g, s1.get g = if g ∈ fs then loaded pfx env g (s.get g) else s.get g := by
  intro fs
  induction fs with
  | nil =>
    intro s s1 _ h g
    simp only [processLoop, Prod.mk.injEq, and_true] at h
    simp [h]
  | cons f fs ih =>
    intro s s1 hnd h g
    rw [List.nodup_cons] at hnd
    simp only [processLoop] at h
    cases hp : processField pfx env s f with
    | error e => rw [hp] at h; simp at h
    | ok s2 =>
      rw [hp] at h
      have h2 := ih s2 s1 hnd.2 h g
      have h3 := processField_ok hp g
      rw [h2, h3]
      by_cases hg : g = f
      · subst hg
        simp [hnd.1]
      · simp [hg]

theorem processLoop_none_iff (pfx : String) (env : Env) :
    ∀ (fs : List Field) (s : Settings),
      (processLoop pfx env fs s).2 = none ↔ ∀ f ∈ fs, fieldOK pfx env f := by
  intro fs
  induction fs with
  | nil => intro s; simp [processLoop]
  | cons f fs ih =>
    intro s
    simp only [processLoop, List.mem_cons, forall_eq_or_imp]
    rw [← processField_isOk pfx env s f]
    cases hp : processField pfx env s f with
    | error e => simp
    | ok s2 => simp [ih s2]

theorem Field.all_nodup : Field.all.Nodup := by decide

theorem Field.mem_all (f : Field) : f ∈ Field.all := by cases f <;> decide

theorem Process_get {pfx : String} {env : Env} {s s1 : Settings}
    (h : Process pfx env s = (s1, none)) (g : Field) :
    s1.get g = loaded pfx env g (s.get g) := by
  have := processLoop_ok Field.all s s1 Field.all_nodup h g
  simpa [Field.mem_all] using this

theorem Process_none_iff (pfx : String) (env : Env) (s : Settings) :
    (Process pfx env s).2 = none ↔ ∀ f, fieldOK pfx env f := by
  unfold Process
  rw [processLoop_none_iff]
  simp [Field.mem_all]

theorem envKey_RHO (f : Field) : envKey "RHO" f.name = f.rhoKey := by
  cases f <;> rfl

theorem loaded_RHO (env : Env) (s : Settings) (g : Field) :
    loaded "RHO" env g (s.get g) = (direct env s).get g := by
  unfold loaded fieldValue
  rw [envKey_RHO]
  cases g <;>
    simp only [Field.rhoKey, Field.kind, convert, direct, Settings.get, strOr, intOr, boolOr] <;>
    split <;> first | rfl | (split <;> rfl)

theorem fieldOK_RHO_int (env : Env) (f : Field) (h : f.kind = .int) :
    fieldOK "RHO" env f ↔ intOK (Getenv env f.rhoKey) := by
  unfold fieldOK fieldValue intOK
  rw [envKey_RHO, h]
  simp only [convert]
  cases ParseInt (Getenv env f.rhoKey) 0 intBits <;> simp

theorem fieldOK_RHO_bool (env : Env) (f : Field) (h : f.kind = .bool) :
    fieldOK "RHO" env f ↔ boolOK (Getenv env f.rhoKey) := by
  unfold fieldOK fieldValue boolOK
  rw [envKey_RHO, h]
  simp only [convert]
  cases ParseBool (Getenv env f.rhoKey) <;> simp

theorem fieldOK_RHO_string (env : Env) (f : Field) (h : f.kind = .string) :
    fieldOK "RHO" env f := by
  unfold fieldOK
  rw [h]
  simp [convert]

theorem fieldOK_RHO_iff (env : Env) : (∀ f, fieldOK "RHO" env f) ↔ directOK env := by
  unfold directOK
  constructor
  · intro h
    exact ⟨(fieldOK_RHO_int env .Port rfl).1 (h _), (fieldOK_RHO_bool env .DockerTLS rfl).1 (h _),
      (fieldOK_RHO_int env .Poll rfl).1 (h _), (fieldOK_RHO_bool env .Web rfl).1 (h _),
      (fieldOK_RHO_bool env .Runner rfl).1 (h _)⟩
  · rintro ⟨h1, h2, h3, h4, h5⟩ f
    cases f
    case Port => exact (fieldOK_RHO_int env .Port rfl).2 h1
    case DockerTLS => exact (fieldOK_RHO_bool env .DockerTLS rfl).2 h2
    case Poll => exact (fieldOK_RHO_int env .Poll rfl).2 h3
    case Web => exact (fieldOK_RHO_bool env .Web rfl).2 h4
    case Runner => exact (fieldOK_RHO_bool env .Runner rfl).2 h5
    all_goals exact fieldOK_RHO_string env _ rfl

/-- The direct load succeeds exactly when the five variables of the integer and
boolean fields are empty or parse, and then stores the closed form `direct`. -/
theorem Process_RHO (env : Env) (s : Settings) :
    (directOK env → Process "RHO" env s = (direct env s, none)) ∧
    (¬ directOK env → ∃ e, (Process "RHO" env s).2 = some e) := by
  constructor
  · intro h
    have hn := (Process_none_iff "RHO" env s).2 ((fieldOK_RHO_iff env).2 h)
    have hp : Process "RHO" env s = ((Process "RHO" env s).1, none) := by
      rw [← hn]
    rw [hp]
    congr 1
    apply Settings.ext_get
    intro g
    rw [Process_get hp g, loaded_RHO]
  · intro h
    have hn : ¬ (Process "RHO" env s).2 = none := by
      rw [Process_none_iff, fieldOK_RHO_iff]; exact h
    cases hq : (Process "RHO" env s).2 with
    | none => exact absurd hq hn
    | some e => exact ⟨e, rfl⟩

theorem applyDefaults_eq (env : Env) (c : Settings) :
    applyDefaults env c =
      { c with
        Port := intDefault c.Port 8000
        LogLevel := strDefault c.LogLevel "info"
        MongoURL := strDefault c.MongoURL "mongo"
        Poll := intDefault c.Poll 500
        DockerHost := strDefault c.DockerHost
          (strDefault (Getenv env "DOCKER_HOST") "unix:///var/run/docker.sock") } := by
  cases c
  simp only [applyDefaults, intDefault, strDefault]
  split_ifs <;> simp_all

theorem applyCertDefaults_eq (root : String) (c : Settings) :
    applyCertDefaults root c =
      { c with
        DockerCACert := strDefault c.DockerCACert (Join [root, "ca.pem"])
        DockerCert := strDefault c.DockerCert (Join [root, "cert.pem"])
        DockerKey := strDefault c.DockerKey (Join [root, "key.pem"])
        Image := strDefault c.Image "cloudpipe/runner-py2" } := by
  cases c
  simp only [applyCertDefaults, strDefault]
  split_ifs <;> simp_all

theorem checkModes_eq (env : Env) (c : Settings) :
    checkModes env c =
      if c.Web = false ∧ c.Runner = false ∧ Getenv env "RHO_WEB" ≠ "" ∧ Getenv env "RHO_RUNNER" ≠ ""
      then (c, some .mode)
      else ({ c with Web := c.Web || !c.Runner, Runner := c.Runner || !c.Web }, none) := by
  cases c with
  | mk _ _ _ _ _ _ _ _ _ _ _ _ Web Runner =>
    cases Web <;> cases Runner <;> simp only [checkModes] <;> split_ifs <;> simp_all

theorem checkModes_resolved (env : Env) (root : String) (c : Settings) :
    checkModes env (resolved env root c) =
      if modeConflict env c then (resolved env root c, some .mode)
      else (final env root c, none) := by
  rw [checkModes_eq]
  simp only [resolved, applyCertDefaults_eq, applyDefaults_eq, direct, modeConflict, final]

theorem resolved_LogLevel (env : Env) (root : String) (c : Settings) :
    (resolved env root c).LogLevel = (final env root c).LogLevel := by
  simp only [resolved, applyCertDefaults_eq, applyDefaults_eq, direct, final]

theorem certRoot_eq (env : Env) (current : Except String OSUser) :
    certRoot env current =
      if Getenv env "DOCKER_CERT_PATH" = "" then
        match current with
        | .error err => .error (.osUser err)
        | .ok user => .ok (Join [user.HomeDir, ".docker"])
      else .ok (Getenv env "DOCKER_CERT_PATH") := rfl

theorem resolved_def (env : Env) (root : String) (c : Settings) :
    resolved env root c = applyCertDefaults root (applyDefaults env (direct env c)) := rfl

theorem certRoot_error {env : Env} {current : Except String OSUser} {err : LoadError}
    (h : certRoot env current = .error err) :
    Getenv env "DOCKER_CERT_PATH" = "" ∧ ∃ cause, current = .error cause ∧ err = .osUser cause := by
  rw [certRoot_eq] at h
  split_ifs at h with h1
  · refine ⟨h1, ?_⟩
    cases current with
    | error cause =>
      simp only [Except.error.injEq] at h
      exact ⟨cause, rfl, h.symm⟩
    | ok u => simp at h

theorem certRoot_ok {env : Env} {current : Except String OSUser} {root : String}
    (h : certRoot env current = .ok root) :
    (Getenv env "DOCKER_CERT_PATH" ≠ "" ∧ root = Getenv env "DOCKER_CERT_PATH") ∨
    (Getenv env "DOCKER_CERT_PATH" = "" ∧
      ∃ u, current = .ok u ∧ root = Join [u.HomeDir, ".docker"]) := by
  rw [certRoot_eq] at h
  split_ifs at h with h1
  · right
    refine ⟨h1, ?_⟩
    cases current with
    | error cause => simp at h
    | ok u =>
      simp only [Except.ok.injEq] at h
      exact ⟨u, rfl, h.symm⟩
  · left
    simp only [Except.ok.injEq] at h
    exact ⟨h1, h.symm⟩

/-! ## Lexical path cleaning -/

theorem splitOn_append_sep (a b : List Char) :
    (a ++ '/' :: b).splitOn '/' = a.splitOn '/' ++ b.splitOn '/' := by
  induction a with
  | nil => simp [List.splitOn]
  | cons x a ih =>
    simp only [List.splitOn] at ih ⊢
    simp only [List.cons_append, List.splitOnP_cons, ih]
    split_ifs
    · rfl
    · cases h : List.splitOnP (fun x => x == '/') a with
      | nil => exact absurd h (List.splitOnP_ne_nil _ _)
      | cons y ys => rfl

theorem not_mem_of_mem_splitOn (xs : List Char) :
    ∀ l ∈ xs.splitOn '/', '/' ∉ l := by
  induction xs with
  | nil => simp [List.splitOn]
  | cons x xs ih =>
    simp only [List.splitOn] at ih ⊢
    simp only [List.splitOnP_cons]
    split_ifs with hx
    · intro l hl
      rcases List.mem_cons.1 hl with h | h
      · subst h; simp
      · exact ih l h
    · cases h : List.splitOnP (fun x => x == '/') xs with
      | nil => exact absurd h (List.splitOnP_ne_nil _ _)
      | cons y ys =>
        rw [h] at ih
        intro l hl
        simp only [List.modifyHead, List.mem_cons] at hl
        rcases hl with h1 | h1
        · subst h1
          have := ih y (List.mem_cons_self _ _)
          simp only [List.mem_cons, not_or]
          refine ⟨?_, this⟩
          intro hc
          apply hx
          simp [← hc]
        · exact ih l (List.mem_cons_of_mem _ h1)

theorem cleanStep_name (rooted : Bool) (st : CleanState) {el : List Char} (h : IsName el) :
    cleanStep rooted st el = { st with names := el :: st.names } := by
  unfold cleanStep
  rw [if_neg h.1, if_neg h.2.1, if_neg h.2.2.1]

theorem cleanStep_nil (rooted : Bool) (st : CleanState) : cleanStep rooted st [] = st := by
  unfold cleanStep
  rw [if_pos rfl]

theorem cleanStep_dotdot (rooted : Bool) (st : CleanState) :
    cleanStep rooted st ['.', '.'] =
      match st.names with
      | _ :: rest => { st with names := rest }
      | [] => if rooted then st else { st with dotdot := st.dotdot + 1 } := by
  unfold cleanStep
  simp

theorem cleanStep_inv {rooted : Bool} {st : CleanState} (h : CleanInv rooted st)
    {el : List Char} (hel : '/' ∉ el) : CleanInv rooted (cleanStep rooted st el) := by
  by_cases h1 : el = []
  · subst h1; rw [cleanStep_nil]; exact h
  by_cases h2 : el = ['.']
  · subst h2
    have : cleanStep rooted st ['.'] = st := by unfold cleanStep; simp
    rw [this]; exact h
  by_cases h3 : el = ['.', '.']
  · subst h3
    rw [cleanStep_dotdot]
    cases hn : st.names with
    | nil =>
      cases rooted with
      | true => simpa using h
      | false =>
        refine ⟨?_, by simp⟩
        simp [hn]
    | cons n rest =>
      refine ⟨?_, h.2⟩
      intro m hm
      exact h.1 m (by rw [hn]; exact List.mem_cons_of_mem _ hm)
  · rw [cleanStep_name rooted st ⟨h1, h2, h3, hel⟩]
    refine ⟨?_, h.2⟩
    intro m hm
    rcases List.mem_cons.1 hm with h4 | h4
    · subst h4; exact ⟨h1, h2, h3, hel⟩
    · exact h.1 m h4

theorem foldl_cleanStep_inv {rooted : Bool} (els : List (List Char)) :
    ∀ {st : CleanState}, CleanInv rooted st → (∀ el ∈ els, '/' ∉ el) →
      CleanInv rooted (els.foldl (cleanStep rooted) st) := by
  induction els with
  | nil => intro st h _; exact h
  | cons el els ih =>
    intro st h hels
    simp only [List.foldl_cons]
    exact ih (cleanStep_inv h (hels el (List.mem_cons_self _ _)))
      (fun e he => hels e (List.mem_cons_of_mem _ he))

theorem cleanInv_init (rooted : Bool) : CleanInv rooted ⟨0, []⟩ := by
  constructor
  · intro n hn; cases hn
  · intro _; rfl

theorem cleanState_inv (p : List Char) : CleanInv (isRooted p) (cleanState p) :=
  foldl_cleanStep_inv _ (cleanInv_init _) (not_mem_of_mem_splitOn p)

/-- Appending names: each one is pushed on the stack. -/
theorem foldl_cleanStep_names (rooted : Bool) (l : List (List Char)) :
    ∀ (st : CleanState), (∀ n ∈ l, IsName n) →
      l.foldl (cleanStep rooted) st = { st with names := l.reverse ++ st.names } := by
  induction l with
  | nil => intro st _; rfl
  | cons n l ih =>
    intro st h
    simp only [List.foldl_cons]
    rw [cleanStep_name rooted st (h n (List.mem_cons_self _ _)),
      ih _ (fun m hm => h m (List.mem_cons_of_mem _ hm))]
    simp

/-- Leading `..` elements of a path that is not rooted are counted. -/
theorem foldl_cleanStep_dotdot (k : Nat) :
    ∀ (j : Nat), (List.replicate k ['.', '.']).foldl (cleanStep false) ⟨j, []⟩ = ⟨j + k, []⟩ := by
  induction k with
  | zero => intro j; rfl
  | succ k ih =>
    intro j
    simp only [List.replicate_succ, List.foldl_cons]
    have : cleanStep false ⟨j, []⟩ ['.', '.'] = ⟨j + 1, []⟩ := by
      unfold cleanStep
      simp
    rw [this, ih]
    congr 1
    omega

/-- The elements written in the output buffer. -/
theorem cleanRender_eq (rooted : Bool) (st : CleanState) :
    cleanRender rooted st =
      if rooted then '/' :: ['/'].intercalate (List.replicate st.dotdot ['.', '.'] ++ st.names.reverse)
      else if List.replicate st.dotdot ['.', '.'] ++ st.names.reverse = [] then ['.']
      else ['/'].intercalate (List.replicate st.dotdot ['.', '.'] ++ st.names.reverse) := rfl

theorem intercalate_nil_cons {els : List (List Char)} (h : els ≠ []) :
    ['/'].intercalate ([] :: els) = '/' :: ['/'].intercalate els := by
  cases els with
  | nil => exact absurd rfl h
  | cons e es => simp [List.intercalate, List.intersperse]

theorem intercalate_append_singleton {els : List (List Char)} (h : els ≠ []) (n : List Char) :
    ['/'].intercalate (els ++ [n]) = ['/'].intercalate els ++ '/' :: n := by
  induction els with
  | nil => exact absurd rfl h
  | cons e es ih =>
    cases es with
    | nil => simp [List.intercalate, List.intersperse]
    | cons e2 es2 =>
      have := ih (by simp)
      simp only [List.intercalate, List.cons_append, List.intersperse, List.flatten_cons,
        List.append_assoc, List.nil_append, List.append_eq] at this ⊢
      rw [this]

theorem elems_no_sep {rooted : Bool} {st : CleanState} (h : CleanInv rooted st) :
    ∀ l ∈ List.replicate st.dotdot ['.', '.'] ++ st.names.reverse, '/' ∉ l := by
  intro l hl
  rcases List.mem_append.1 hl with h1 | h1
  · rw [List.eq_of_mem_replicate h1]; decide
  · exact (h.1 l (List.mem_reverse.1 h1)).2.2.2

theorem foldl_cleanStep_elems {rooted : Bool} {st : CleanState} (h : CleanInv rooted st) :
    (List.replicate st.dotdot ['.', '.'] ++ st.names.reverse).foldl (cleanStep rooted) ⟨0, []⟩ =
      st := by
  have hn : ∀ n ∈ st.names.reverse, IsName n := fun n hn => h.1 n (List.mem_reverse.1 hn)
  cases rooted with
  | true =>
    have hk := h.2 rfl
    rw [hk, List.replicate_zero, List.nil_append, foldl_cleanStep_names true _ _ hn]
    cases st
    simp only at hk
    simp [hk]
  | false =>
    rw [List.foldl_append, foldl_cleanStep_dotdot, foldl_cleanStep_names false _ _ hn]
    cases st
    simp

theorem isRooted_intercalate {els : List (List Char)}
    (h : ∀ l ∈ els, l ≠ [] ∧ '/' ∉ l) : isRooted (['/'].intercalate els) = false := by
  cases els with
  | nil => rfl
  | cons e es =>
    obtain ⟨he, hs⟩ := h e (List.mem_cons_self _ _)
    cases e with
    | nil => exact absurd rfl he
    | cons c cs =>
      have hc : c ≠ '/' := fun hc => hs (by rw [hc]; exact List.mem_cons_self _ _)
      cases es with
      | nil => simp [List.intercalate, List.intersperse, isRooted, hc]
      | cons e2 es2 => simp [List.intercalate, List.intersperse, isRooted, hc]

theorem elems_nonempty {rooted : Bool} {st : CleanState} (h : CleanInv rooted st) :
    ∀ l ∈ List.replicate st.dotdot ['.', '.'] ++ st.names.reverse, l ≠ [] ∧ '/' ∉ l := by
  intro l hl
  refine ⟨?_, elems_no_sep h l hl⟩
  rcases List.mem_append.1 hl with h1 | h1
  · rw [List.eq_of_mem_replicate h1]; decide
  · exact (h.1 l (List.mem_reverse.1 h1)).1

/-- Cleaning what `path.Clean` has written reads the same buffer again. -/
theorem cleanRender_reread {rooted : Bool} {st : CleanState} (h : CleanInv rooted st) :
    cleanRender rooted st ≠ [] ∧ isRooted (cleanRender rooted st) = rooted ∧
    ((cleanRender rooted st).splitOn '/').foldl (cleanStep rooted) ⟨0, []⟩ = st := by
  rw [cleanRender_eq]
  have hfold := foldl_cleanStep_elems h
  have hsep := elems_no_sep h
  have hne := elems_nonempty h
  generalize List.replicate st.dotdot ['.', '.'] ++ st.names.reverse = els at hfold hsep hne
  cases rooted with
  | true =>
    simp only [if_true]
    refine ⟨by simp, rfl, ?_⟩
    by_cases he : els = []
    · subst he
      rw [← hfold]
      rfl
    · rw [← intercalate_nil_cons he, List.splitOn_intercalate _ '/' _ (by simp),
        List.foldl_cons, cleanStep_nil, hfold]
      intro l hl
      rcases List.mem_cons.1 hl with h1 | h1
      · subst h1; simp
      · exact hsep l h1
  | false =>
    simp only [Bool.false_eq_true, if_false]
    by_cases he : els = []
    · subst he
      rw [if_pos rfl, ← hfold]
      exact ⟨by simp, rfl, rfl⟩
    · rw [if_neg he]
      refine ⟨?_, isRooted_intercalate hne, ?_⟩
      · intro hnil
        have := List.splitOn_intercalate els '/' hsep he
        rw [hnil] at this
        cases els with
        | nil => exact he rfl
        | cons e es =>
          simp only [List.splitOn_nil, List.cons.injEq] at this
          exact (hne e (List.mem_cons_self _ _)).1 this.1.symm
      · rw [List.splitOn_intercalate _ '/' hsep he, hfold]

theorem cleanChars_of_ne_nil {p : List Char} (h : p ≠ []) :
    cleanChars p = cleanRender (isRooted p) (cleanState p) := by
  unfold cleanChars cleanState
  rw [if_neg h]

theorem isRooted_append {p : List Char} (h : p ≠ []) (q : List Char) :
    isRooted (p ++ q) = isRooted p := by
  cases p with
  | nil => exact absurd rfl h
  | cons c cs => rfl

theorem cleanChars_append {p : List Char} (h : p ≠ []) (q : List Char) :
    cleanChars (p ++ '/' :: q) =
      cleanRender (isRooted p) ((q.splitOn '/').foldl (cleanStep (isRooted p)) (cleanState p)) := by
  rw [cleanChars_of_ne_nil (by simp)]
  unfold cleanState
  rw [isRooted_append h, splitOn_append_sep, List.foldl_append]

theorem cleanChars_ne_nil (p : List Char) : cleanChars p ≠ [] := by
  by_cases h : p = []
  · subst h; decide
  · rw [cleanChars_of_ne_nil h]
    exact (cleanRender_reread (cleanState_inv p)).1

/-- Cleaning a cleaned path followed by more elements is cleaning the path
followed by these elements. -/
theorem cleanChars_reclean {p : List Char} (h : p ≠ []) (q : List Char) :
    cleanChars (cleanChars p ++ '/' :: q) = cleanChars (p ++ '/' :: q) := by
  rw [cleanChars_append (cleanChars_ne_nil p), cleanChars_append h, cleanChars_of_ne_nil h]
  obtain ⟨_, h2, h3⟩ := cleanRender_reread (cleanState_inv p)
  unfold cleanState at h2 h3 ⊢
  rw [h2, h3]

/-- The function `path.Clean` is idempotent. -/
theorem cleanChars_idem (p : List Char) : cleanChars (cleanChars p) = cleanChars p := by
  by_cases h : p = []
  · subst h; decide
  · rw [cleanChars_of_ne_nil (cleanChars_ne_nil p), cleanChars_of_ne_nil h]
    obtain ⟨_, h2, h3⟩ := cleanRender_reread (cleanState_inv p)
    unfold cleanState at h2 h3 ⊢
    rw [h2, h3]

theorem Clean_data (path : String) : (Clean path).data = cleanChars path.data := rfl

theorem Clean_ne_empty (path : String) : Clean path ≠ "" := by
  intro h
  have := congrArg String.data h
  rw [Clean_data] at this
  exact cleanChars_ne_nil _ this

theorem data_ne_nil {s : String} (h : s ≠ "") : s.data ≠ [] := by
  intro hd
  apply h
  cases s
  simp only at hd
  subst hd
  rfl

theorem Join_pair_of_ne {a : String} (h : a ≠ "") (b : String) :
    Join [a, b] = String.mk (cleanChars (a.data ++ '/' :: b.data)) := by
  unfold Join
  rw [if_pos h]
  unfold Clean
  congr 1
  simp [String.intercalate, String.intercalate.go]

theorem Join_triple_of_ne {a : String} (h : a ≠ "") (b c : String) :
    Join [a, b, c] = String.mk (cleanChars ((a.data ++ '/' :: b.data) ++ '/' :: c.data)) := by
  unfold Join
  rw [if_pos h]
  unfold Clean
  congr 1
  simp [String.intercalate, String.intercalate.go]

theorem Join_empty_cons (rest : List String) : Join ("" :: rest) = Join rest := by
  rw [Join]
  simp

/-- Joining in two steps is joining in one: `Join(Join(a, b), c) = Join(a, b, c)`. -/
theorem Join_Join (a b c : String) : Join [Join [a, b], c] = Join [a, b, c] := by
  by_cases ha : a = ""
  · subst ha
    by_cases hb : b = ""
    · subst hb
      have h0 : Join [] = "" := rfl
      simp only [Join_empty_cons, h0]
    · have h1 : Join [b] = Clean b := by
        unfold Join; rw [if_pos hb]; rfl
      simp only [Join_empty_cons]
      rw [h1, Join_pair_of_ne (Clean_ne_empty b), Join_pair_of_ne hb, Clean_data,
        cleanChars_reclean (data_ne_nil hb)]
  · have hne : Join [a, b] ≠ "" := by
      rw [Join_pair_of_ne ha]
      intro h
      exact cleanChars_ne_nil _ (congrArg String.data h)
    rw [Join_pair_of_ne hne, Join_triple_of_ne ha, Join_pair_of_ne ha]
    show String.mk (cleanChars (cleanChars (a.data ++ '/' :: b.data) ++ '/' :: c.data)) = _
    rw [cleanChars_reclean (by simp)]

theorem dirPart_of_no_sep {name : List Char} (h : '/' ∉ name) : dirPart name = [] := by
  unfold dirPart
  rw [List.reverse_eq_nil_iff, List.dropWhile_eq_nil_iff]
  intro c hc
  have : c ≠ '/' := fun hcs => h (by rw [← hcs]; exact List.mem_reverse.1 hc)
  simpa using this

theorem dirPart_append_sep (pre : List Char) {name : List Char} (h : '/' ∉ name) :
    dirPart (pre ++ '/' :: name) = pre ++ ['/'] := by
  unfold dirPart
  have h1 : (pre ++ '/' :: name).reverse = name.reverse ++ ('/' :: pre.reverse) := by simp
  rw [h1, List.dropWhile_append_of_pos]
  · simp
  · intro c hc
    have : c ≠ '/' := fun hcs => h (by rw [← hcs]; exact List.mem_reverse.1 hc)
    simpa using this

/-- The directory of a cleaned path that ends in a name is the cleaned path
without that name. -/
theorem cleanChars_dirPart {p name : List Char} (hp : p ≠ []) (hn : IsName name) :
    cleanChars (dirPart (cleanChars (p ++ '/' :: name))) = cleanChars p := by
  have hinv := cleanState_inv p
  obtain ⟨h1, h2, h3⟩ := cleanRender_reread hinv
  rw [cleanChars_append hp]
  have hsplit : name.splitOn '/' = [name] := by
    have := List.splitOn_intercalate [name] '/' (by simpa using hn.2.2.2) (by simp)
    simpa [List.intercalate] using this
  rw [hsplit, List.foldl_cons, List.foldl_nil, cleanStep_name _ _ hn, cleanChars_of_ne_nil hp]
  generalize cleanState p = st at hinv h1 h2 h3
  have hel : List.replicate st.dotdot ['.', '.'] ++ (name :: st.names).reverse =
      (List.replicate st.dotdot ['.', '.'] ++ st.names.reverse) ++ [name] := by simp
  have key : cleanRender (isRooted p) { st with names := name :: st.names } =
      if List.replicate st.dotdot ['.', '.'] ++ st.names.reverse = [] then
        (if isRooted p then '/' :: name else name)
      else cleanRender (isRooted p) st ++ '/' :: name := by
    rw [cleanRender_eq, cleanRender_eq]
    simp only [hel]
    by_cases he : List.replicate st.dotdot ['.', '.'] ++ st.names.reverse = []
    · rw [he]
      cases isRooted p <;> simp [List.intercalate]
    · rw [if_neg he, intercalate_append_singleton he]
      cases isRooted p <;> simp [he]
  rw [key]
  by_cases he : List.replicate st.dotdot ['.', '.'] ++ st.names.reverse = []
  · rw [if_pos he, cleanRender_eq, he]
    cases isRooted p with
    | true =>
      simp only [if_true]
      have := dirPart_append_sep [] hn.2.2.2
      simp only [List.nil_append] at this
      rw [this]
      decide
    | false =>
      simp only [Bool.false_eq_true, if_false]
      rw [dirPart_of_no_sep hn.2.2.2]
      decide
  · rw [if_neg he, dirPart_append_sep _ hn.2.2.2]
    have : cleanRender (isRooted p) st ++ ['/'] = cleanRender (isRooted p) st ++ '/' :: [] := rfl
    rw [this, cleanChars_append h1]
    unfold cleanState
    rw [h2, h3]
    simp [cleanStep_nil]

/-- The directory of `Join(root, name)` is the cleaned root, for a root that is
not empty and a name. -/
theorem Dir_Join {root name : String} (hr : root ≠ "") (hn : IsName name.data) :
    Dir (Join [root, name]) = Clean root := by
  rw [Join_pair_of_ne hr]
  unfold Dir Clean
  congr 1
  exact cleanChars_dirPart (data_ne_nil hr) hn

/-! ## Parsing the textual form of an integer -/

theorem digitVal_digitChar : ∀ d < 10, digitVal (digitChar d) = some d := by decide

theorem digitChar_toNat : ∀ d < 10, (digitChar d).toNat - 48 = d := by decide

theorem digitsValue_ge (ds : List Char) : ∀ m, m ≤ digitsValue m ds := by
  induction ds with
  | nil => intro m; exact Nat.le_refl _
  | cons c cs ih =>
    intro m
    unfold digitsValue at ih ⊢
    simp only [List.foldl_cons]
    have := ih (m * 10 + (c.toNat - 48))
    omega

theorem cutoff64_ten : cutoff64 10 = 1844674407370955162 := by decide

/-- On decimal digits whose value fits 64 bits, the loop of `ParseUint` computes
that value. -/
theorem parseUintLoop_digits (ds : List Char) :
    ∀ m, (∀ c ∈ ds, IsDigit c) → digitsValue m ds < 2 ^ 64 →
      parseUintLoop 10 64 ds m = .ok (digitsValue m ds) := by
  induction ds with
  | nil => intro m _ _; rfl
  | cons c cs ih =>
    intro m hd hv
    obtain ⟨d, hd10, hc⟩ := hd c (List.mem_cons_self _ _)
    have hval : digitsValue m (c :: cs) = digitsValue (m * 10 + d) cs := by
      unfold digitsValue
      simp only [List.foldl_cons]
      rw [hc, digitChar_toNat d hd10]
    rw [hval] at hv ⊢
    have hge := digitsValue_ge cs (m * 10 + d)
    have hlt : m * 10 + d < 2 ^ 64 := lt_of_le_of_lt hge hv
    have h64 : (2 : Nat) ^ 64 = 18446744073709551616 := by norm_num
    rw [h64] at hlt
    unfold parseUintLoop
    rw [hc, digitVal_digitChar d hd10]
    simp only
    rw [if_neg (by omega), cutoff64_ten, if_neg (by omega)]
    have e0 : m * 10 % 2 ^ 64 = m * 10 := by rw [h64]; omega
    have e1 : (m * 10 + d) % 2 ^ 64 = m * 10 + d := by rw [h64]; omega
    rw [e0, e1, if_neg (by rw [h64]; omega)]
    exact ih _ (fun x hx => hd x (List.mem_cons_of_mem _ hx)) hv

theorem decimalDigits_acc (fuel : Nat) :
    ∀ n acc, decimalDigits fuel n acc = decimalDigits fuel n [] ++ acc := by
  induction fuel with
  | zero => intro n acc; rfl
  | succ fuel ih =>
    intro n acc
    unfold decimalDigits
    split_ifs
    · rfl
    · rw [ih _ (digitChar (n % 10) :: acc), ih _ [digitChar (n % 10)]]
      simp

theorem decimalDigits_value (fuel : Nat) :
    ∀ n, n < fuel → digitsValue 0 (decimalDigits fuel n []) = n := by
  induction fuel with
  | zero => intro n h; omega
  | succ fuel ih =>
    intro n h
    unfold decimalDigits
    split_ifs with h10
    · unfold digitsValue
      simp only [List.foldl_cons, List.foldl_nil]
      rw [digitChar_toNat n h10]
      omega
    · rw [decimalDigits_acc]
      unfold digitsValue at ih ⊢
      rw [List.foldl_append, ih (n / 10) (by omega)]
      simp only [List.foldl_cons, List.foldl_nil]
      rw [digitChar_toNat _ (Nat.mod_lt _ (by omega))]
      omega

theorem decimalDigits_isDigit (fuel : Nat) :
    ∀ n, n < fuel → ∀ c ∈ decimalDigits fuel n [], IsDigit c := by
  induction fuel with
  | zero => intro n h; omega
  | succ fuel ih =>
    intro n h c hc
    unfold decimalDigits at hc
    split_ifs at hc with h10
    · rw [List.mem_singleton] at hc
      exact ⟨n, h10, hc⟩
    · rw [decimalDigits_acc, List.mem_append, List.mem_singleton] at hc
      rcases hc with hc | hc
      · exact ih (n / 10) (by omega) c hc
      · exact ⟨n % 10, Nat.mod_lt _ (by omega), hc⟩

/-- The decimal representation of a positive number starts with a digit from 1 to 9. -/
theorem decimalDigits_head (fuel : Nat) :
    ∀ n, n < fuel → 0 < n →
      ∃ d tl, 0 < d ∧ d < 10 ∧ decimalDigits fuel n [] = digitChar d :: tl := by
  induction fuel with
  | zero => intro n h; omega
  | succ fuel ih =>
    intro n h hpos
    unfold decimalDigits
    split_ifs with h10
    · exact ⟨n, [], hpos, h10, rfl⟩
    · obtain ⟨d, tl, h1, h2, h3⟩ := ih (n / 10) (by omega) (by omega)
      rw [decimalDigits_acc, h3]
      exact ⟨d, tl ++ [digitChar (n % 10)], h1, h2, rfl⟩

theorem ParseUint_decimal {c0 : Char} (tl : List Char) (h : c0 ≠ '0') (bitSize : Nat) :
    ParseUint (c0 :: tl) 0 bitSize = parseUintLoop 10 bitSize (c0 :: tl) 0 := by
  unfold ParseUint
  simp only [nonpos_iff_eq_zero, OfNat.ofNat_ne_zero, false_and, if_false, if_true]
  split
  · exact (h rfl).elim
  · exact (h rfl).elim
  · rfl

theorem digitChar_ne_zero : ∀ d < 10, 0 < d → digitChar d ≠ '0' ∧ digitChar d ≠ '+' ∧
    digitChar d ≠ '-' := by decide

/-- The decimal representation of a number that fits 64 bits parses back to it. -/
theorem ParseUint_formatUint {n : Nat} (h : n < 2 ^ 64) :
    ParseUint (formatUint n) 0 64 = .ok n := by
  by_cases h0 : n = 0
  · subst h0; rfl
  · obtain ⟨d, tl, h1, h2, h3⟩ := decimalDigits_head (n + 1) n (by omega) (by omega)
    have hv := decimalDigits_value (n + 1) n (by omega)
    have hdig := decimalDigits_isDigit (n + 1) n (by omega)
    unfold formatUint
    rw [h3] at hv hdig ⊢
    rw [ParseUint_decimal tl (digitChar_ne_zero d h2 h1).1, parseUintLoop_digits _ 0 hdig
      (by rw [hv]; exact h), hv]


theorem formatUint_head (n : Nat) : ∃ c tl, formatUint n = c :: tl ∧ c ≠ '+' ∧ c ≠ '-' := by
  by_cases h0 : n = 0
  · subst h0; exact ⟨'0', [], rfl, by decide, by decide⟩
  · obtain ⟨d, tl, h1, h2, h3⟩ := decimalDigits_head (n + 1) n (by omega) (by omega)
    exact ⟨digitChar d, tl, h3, (digitChar_ne_zero d h2 h1).2.1, (digitChar_ne_zero d h2 h1).2.2⟩

theorem ParseInt_minus (ds : List Char) (bitSize : Nat) :
    ParseInt (String.mk ('-' :: ds)) 0 bitSize =
      match ParseUint ds 0 bitSize with
      | .error e => .error e
      | .ok un => if un > 2 ^ (bitSize - 1) then .error .ErrRange else .ok (- (un : Int)) := by
  unfold ParseInt
  simp only [or_true, if_true]
  cases ParseUint ds 0 bitSize with
  | error e => cases e <;> rfl
  | ok un => simp

theorem ParseInt_unsigned {c : Char} (tl : List Char) (hplus : c ≠ '+') (hminus : c ≠ '-')
    (bitSize : Nat) :
    ParseInt (String.mk (c :: tl)) 0 bitSize =
      match ParseUint (c :: tl) 0 bitSize with
      | .error e => .error e
      | .ok un => if un ≥ 2 ^ (bitSize - 1) then .error .ErrRange else .ok (un : Int) := by
  unfold ParseInt
  simp only [hplus, hminus, or_self, if_false]
  cases ParseUint (c :: tl) 0 bitSize with
  | error e => cases e <;> rfl
  | ok un => simp

/-- The textual form of an integer that fits the type `int` parses back to it. -/
theorem ParseInt_formatInt {i : Int} (hlo : -2 ^ 63 ≤ i) (hhi : i < 2 ^ 63) :
    ParseInt (formatInt i) 0 intBits = .ok i := by
  obtain ⟨c, tl, hf, hplus, hminus⟩ := formatUint_head i.natAbs
  have hn : i.natAbs < 2 ^ 64 := by omega
  have hp := ParseUint_formatUint hn
  have h63 : (2 : Nat) ^ (64 - 1) = 9223372036854775808 := by norm_num
  unfold formatInt intBits
  by_cases hneg : i < 0
  · rw [if_pos hneg, ParseInt_minus, hp]
    simp only
    rw [h63, if_neg (by omega)]
    congr 1
    omega
  · rw [if_neg hneg, hf, ParseInt_unsigned tl hplus hminus, ← hf, hp]
    simp only
    rw [h63, if_neg (by omega)]
    congr 1
    omega

theorem formatInt_ne_empty (i : Int) : formatInt i ≠ "" := by
  obtain ⟨c, tl, hf, _, _⟩ := formatUint_head i.natAbs
  unfold formatInt
  split_ifs
  · intro h; exact List.cons_ne_nil _ _ (congrArg String.data h)
  · rw [hf]; intro h; exact List.cons_ne_nil _ _ (congrArg String.data h)

theorem intOr_formatInt {i : Int} (hlo : -2 ^ 63 ≤ i) (hhi : i < 2 ^ 63) (cur : Int) :
    intOr (formatInt i) cur = i := by
  unfold intOr
  rw [if_neg (formatInt_ne_empty i), ParseInt_formatInt hlo hhi]

theorem boolOr_formatBool (b cur : Bool) : boolOr (formatBool b) cur = b := by
  cases b <;> rfl

theorem strDefault_strOr {s : String} (h : s ≠ "") (cur d : String) :
    strDefault (strOr s cur) d = s := by
  unfold strDefault strOr
  rw [if_neg h, if_neg h]

theorem strOr_zero (s : String) : strOr s "" = s := by
  unfold strOr
  split_ifs with h
  · exact h.symm
  · rfl

/-! ## Projections of the closed forms -/

theorem direct_Port (env : Env) (c : Settings) :
    (direct env c).Port = intOr (Getenv env "RHO_PORT") c.Port := rfl

theorem direct_LogLevel (env : Env) (c : Settings) :
    (direct env c).LogLevel = strOr (Getenv env "RHO_LOGLEVEL") c.LogLevel := rfl

theorem direct_MongoURL (env : Env) (c : Settings) :
    (direct env c).MongoURL = strOr (Getenv env "RHO_MONGOURL") c.MongoURL := rfl

theorem direct_AdminName (env : Env) (c : Settings) :
    (direct env c).AdminName = strOr (Getenv env "RHO_ADMINNAME") c.AdminName := rfl

theorem direct_AdminKey (env : Env) (c : Settings) :
    (direct env c).AdminKey = strOr (Getenv env "RHO_ADMINKEY") c.AdminKey := rfl

theorem direct_DockerHost (env : Env) (c : Settings) :
    (direct env c).DockerHost = strOr (Getenv env "RHO_DOCKERHOST") c.DockerHost := rfl

theorem direct_DockerTLS (env : Env) (c : Settings) :
    (direct env c).DockerTLS = boolOr (Getenv env "RHO_DOCKERTLS") c.DockerTLS := rfl

theorem direct_DockerCACert (env : Env) (c : Settings) :
    (direct env c).DockerCACert = strOr (Getenv env "RHO_DOCKERCACERT") c.DockerCACert := rfl

theorem direct_DockerCert (env : Env) (c : Settings) :
    (direct env c).DockerCert = strOr (Getenv env "RHO_DOCKERCERT") c.DockerCert := rfl

theorem direct_DockerKey (env : Env) (c : Settings) :
    (direct env c).DockerKey = strOr (Getenv env "RHO_DOCKERKEY") c.DockerKey := rfl

theorem direct_Image (env : Env) (c : Settings) :
    (direct env c).Image = strOr (Getenv env "RHO_IMAGE") c.Image := rfl

theorem direct_Poll (env : Env) (c : Settings) :
    (direct env c).Poll = intOr (Getenv env "RHO_POLL") c.Poll := rfl

theorem direct_Web (env : Env) (c : Settings) :
    (direct env c).Web = boolOr (Getenv env "RHO_WEB") c.Web := rfl

theorem direct_Runner (env : Env) (c : Settings) :
    (direct env c).Runner = boolOr (Getenv env "RHO_RUNNER") c.Runner := rfl

theorem final_Port (env : Env) (root : String) (c : Settings) :
    (final env root c).Port =
      intDefault (intOr (Getenv env "RHO_PORT") c.Port) 8000 := rfl

theorem final_LogLevel (env : Env) (root : String) (c : Settings) :
    (final env root c).LogLevel =
      strDefault (strOr (Getenv env "RHO_LOGLEVEL") c.LogLevel) "info" := rfl

theorem final_MongoURL (env : Env) (root : String) (c : Settings) :
    (final env root c).MongoURL =
      strDefault (strOr (Getenv env "RHO_MONGOURL") c.MongoURL) "mongo" := rfl

theorem final_AdminName (env : Env) (root : String) (c : Settings) :
    (final env root c).AdminName =
      strOr (Getenv env "RHO_ADMINNAME") c.AdminName := rfl

theorem final_AdminKey (env : Env) (root : String) (c : Settings) :
    (final env root c).AdminKey =
      strOr (Getenv env "RHO_ADMINKEY") c.AdminKey := rfl

theorem final_DockerHost (env : Env) (root : String) (c : Settings) :
    (final env root c).DockerHost =
      strDefault (strOr (Getenv env "RHO_DOCKERHOST") c.DockerHost) (strDefault (Getenv env "DOCKER_HOST") "unix:///var/run/docker.sock") := rfl

theorem final_DockerTLS (env : Env) (root : String) (c : Settings) :
    (final env root c).DockerTLS =
      boolOr (Getenv env "RHO_DOCKERTLS") c.DockerTLS := rfl

theorem final_DockerCACert (env : Env) (root : String) (c : Settings) :
    (final env root c).DockerCACert =
      strDefault (strOr (Getenv env "RHO_DOCKERCACERT") c.DockerCACert) (Join [root, "ca.pem"]) := rfl

theorem final_DockerCert (env : Env) (root : String) (c : Settings) :
    (final env root c).DockerCert =
      strDefault (strOr (Getenv env "RHO_DOCKERCERT") c.DockerCert) (Join [root, "cert.pem"]) := rfl

theorem final_DockerKey (env : Env) (root : String) (c : Settings) :
    (final env root c).DockerKey =
      strDefault (strOr (Getenv env "RHO_DOCKERKEY") c.DockerKey) (Join [root, "key.pem"]) := rfl

theorem final_Image (env : Env) (root : String) (c : Settings) :
    (final env root c).Image =
      strDefault (strOr (Getenv env "RHO_IMAGE") c.Image) "cloudpipe/runner-py2" := rfl

theorem final_Poll (env : Env) (root : String) (c : Settings) :
    (final env root c).Poll =
      intDefault (intOr (Getenv env "RHO_POLL") c.Poll) 500 := rfl

theorem final_Web (env : Env) (root : String) (c : Settings) :
    (final env root c).Web =
      (boolOr (Getenv env "RHO_WEB") c.Web || !boolOr (Getenv env "RHO_RUNNER") c.Runner) := rfl

theorem final_Runner (env : Env) (root : String) (c : Settings) :
    (final env root c).Runner =
      (boolOr (Getenv env "RHO_RUNNER") c.Runner || !boolOr (Getenv env "RHO_WEB") c.Web) := rfl

theorem final_LogLevel_eq (env : Env) (root : String) (c : Settings) :
    (final env root c).LogLevel = (applyDefaults env (direct env c)).LogLevel := by
  rw [applyDefaults_eq]
  rfl

theorem Join_docker_ne (h : String) : Join [h, ".docker"] ≠ "" := by
  by_cases hh : h = ""
  · subst hh; decide
  · rw [Join_pair_of_ne hh]
    intro e
    exact cleanChars_ne_nil _ (congrArg String.data e)

theorem certRoot_ne_empty {env : Env} {current : Except String OSUser} {root : String}
    (h : certRoot env current = .ok root) : root ≠ "" := by
  rcases certRoot_ok h with ⟨h1, h2⟩ | ⟨_, u, _, h2⟩
  · rw [h2]; exact h1
  · rw [h2]; exact Join_docker_ne _

theorem strOr_empty (cur : String) : strOr "" cur = cur := rfl

theorem intOr_empty (cur : Int) : intOr "" cur = cur := rfl

theorem boolOr_empty (cur : Bool) : boolOr "" cur = cur := rfl

theorem strOr_of_ne {value : String} (h : value ≠ "") (cur : String) : strOr value cur = value := by
  unfold strOr; rw [if_neg h]

theorem strDefault_of_ne {s : String} (h : s ≠ "") (d : String) : strDefault s d = s := by
  unfold strDefault; rw [if_neg h]

theorem strDefault_empty (d : String) : strDefault "" d = d := rfl

theorem final_def (env : Env) (root : String) (c : Settings) :
    final env root c =
      { Port := intDefault (intOr (Getenv env "RHO_PORT") c.Port) 8000
        LogLevel := strDefault (strOr (Getenv env "RHO_LOGLEVEL") c.LogLevel) "info"
        MongoURL := strDefault (strOr (Getenv env "RHO_MONGOURL") c.MongoURL) "mongo"
        AdminName := strOr (Getenv env "RHO_ADMINNAME") c.AdminName
        AdminKey := strOr (Getenv env "RHO_ADMINKEY") c.AdminKey
        DockerHost := strDefault (strOr (Getenv env "RHO_DOCKERHOST") c.DockerHost)
          (strDefault (Getenv env "DOCKER_HOST") "unix:///var/run/docker.sock")
        DockerTLS := boolOr (Getenv env "RHO_DOCKERTLS") c.DockerTLS
        DockerCACert := strDefault (strOr (Getenv env "RHO_DOCKERCACERT") c.DockerCACert)
          (Join [root, "ca.pem"])
        DockerCert := strDefault (strOr (Getenv env "RHO_DOCKERCERT") c.DockerCert)
          (Join [root, "cert.pem"])
        DockerKey := strDefault (strOr (Getenv env "RHO_DOCKERKEY") c.DockerKey)
          (Join [root, "key.pem"])
        Image := strDefault (strOr (Getenv env "RHO_IMAGE") c.Image) "cloudpipe/runner-py2"
        Poll := intDefault (intOr (Getenv env "RHO_POLL") c.Poll) 500
        Web := boolOr (Getenv env "RHO_WEB") c.Web ||
          !boolOr (Getenv env "RHO_RUNNER") c.Runner
        Runner := boolOr (Getenv env "RHO_RUNNER") c.Runner ||
          !boolOr (Getenv env "RHO_WEB") c.Web } := rfl

/-! ## Further facts on the closed forms -/

theorem ParseBool_ne_empty {v : String} {b : Bool} (h : ParseBool v = .ok b) : v ≠ "" := by
  rintro rfl
  revert h
  cases b <;> decide

theorem boolOr_of_ok {v : String} {b : Bool} (h : ParseBool v = .ok b) (cur : Bool) :
    boolOr v cur = b := by
  unfold boolOr
  rw [if_neg (ParseBool_ne_empty h), h]

theorem boolOK_cases {v : String} (h : boolOK v) : v = "" ∨ ∃ b, ParseBool v = .ok b := h

theorem Join_pair_ne_empty (a : String) {b : String} (hb : b ≠ "") : Join [a, b] ≠ "" := by
  by_cases ha : a = ""
  · subst ha
    rw [Join_empty_cons]
    unfold Join
    rw [if_pos hb]
    exact Clean_ne_empty _
  · rw [Join_pair_of_ne ha]
    intro e
    exact cleanChars_ne_nil _ (congrArg String.data e)

theorem strDefault_ne_empty (s : String) {d : String} (hd : d ≠ "") : strDefault s d ≠ "" := by
  unfold strDefault
  split_ifs with h
  · exact hd
  · exact h

theorem strDefault_eq_iff (s : String) {d : String} (hd : d ≠ "") :
    strDefault s d = s ↔ (s = "" → False) := by
  by_cases hs : s = ""
  · subst hs
    rw [strDefault_empty]
    simp [hd]
  · rw [strDefault_of_ne hs]
    simp [hs]

theorem intDefault_eq_iff (i : Int) {d : Int} (hd : d ≠ 0) :
    intDefault i d = i ↔ (i = 0 → False) := by
  unfold intDefault
  by_cases hi : i = 0
  · subst hi
    simp [hd]
  · simp [hi]

/-- A mode that is explicitly given: it is kept unless it is false while the
variable of the other mode is empty. -/
theorem mode_kept_iff {vw vr : String} (b : Bool) (hvw : vw = formatBool b)
    (hr : boolOK vr)
    (hm : ¬ (boolOr vw false = false ∧ boolOr vr false = false ∧ vw ≠ "" ∧ vr ≠ "")) :
    (boolOr vw false || !boolOr vr false) = b ↔ (b = false → vr ≠ "") := by
  subst hvw
  rw [boolOr_formatBool] at hm ⊢
  cases b with
  | true => simp
  | false =>
    have hne : formatBool false ≠ "" := by decide
    rcases boolOK_cases hr with h0 | ⟨br, hbr⟩
    · subst h0
      simp [boolOr_empty]
    · have hvr := ParseBool_ne_empty hbr
      rw [boolOr_of_ok hbr] at hm ⊢
      cases br with
      | true => simp [hvr]
      | false => exact absurd ⟨rfl, rfl, hne, hvr⟩ hm

/-! ## The outcomes of `Load` -/

section LoadCases

attribute [local irreducible] direct applyDefaults applyCertDefaults resolved checkModes certRoot
  final

theorem Load_of_directOK {env : Env} (h : directOK env) (current : Except String OSUser)
    (c : Settings) :
    Load env current c =
      match certRoot env current with
      | .error err => (applyDefaults env (direct env c), some err)
      | .ok root =>
        match ParseLevel (final env root c).LogLevel with
        | .error lvl => (resolved env root c, some (.logLevel lvl))
        | .ok _ =>
          if modeConflict env c then (resolved env root c, some .mode)
          else (final env root c, none) := by
  unfold Load
  rw [(Process_RHO env c).1 h]
  simp only [← resolved_def]
  simp only [resolved_LogLevel, checkModes_resolved]

theorem Load_of_not_directOK {env : Env} (h : ¬ directOK env) (current : Except String OSUser)
    (c : Settings) : ∃ e, (Load env current c).2 = some (.envconfig e) := by
  obtain ⟨e, he⟩ := (Process_RHO env c).2 h
  refine ⟨e, ?_⟩
  unfold Load
  cases hp : Process "RHO" env c with
  | mk c1 o =>
    rw [hp] at he
    simp only at he
    subst he
    rfl

/-- What a successful `Load` went through: the direct load succeeded, the
certificate root was found, the log level parsed, the modes did not conflict,
and the settings are those of the closed form. -/
theorem Load_success {env : Env} {current : Except String OSUser} {c : Settings}
    (h : (Load env current c).2 = none) :
    directOK env ∧ ∃ root, certRoot env current = .ok root ∧
      (∃ lv, ParseLevel (final env root c).LogLevel = .ok lv) ∧ ¬ modeConflict env c ∧
      Load env current c = (final env root c, none) := by
  by_cases hd : directOK env
  · refine ⟨hd, ?_⟩
    have hL := Load_of_directOK hd current c
    cases hr : certRoot env current with
    | error err =>
      simp only [hr] at hL
      rw [hL] at h
      exact Option.noConfusion h
    | ok root =>
      simp only [hr] at hL
      refine ⟨root, rfl, ?_⟩
      cases hl : ParseLevel (final env root c).LogLevel with
      | error lvl =>
        simp only [hl] at hL
        rw [hL] at h
        exact Option.noConfusion h
      | ok lv =>
        simp only [hl] at hL
        by_cases hm : modeConflict env c
        · rw [if_pos hm] at hL
          rw [hL] at h
          exact Option.noConfusion h
        · rw [if_neg hm] at hL
          exact ⟨⟨lv, rfl⟩, hm, hL⟩
  · obtain ⟨e, he⟩ := Load_of_not_directOK hd current c
    rw [he] at h
    cases h

/-- The conditions under which `Load` succeeds, and its result then. -/
theorem Load_of_conditions {env : Env} {current : Except String OSUser} {c : Settings}
    {root : String} {lv : Level} (hd : directOK env) (hr : certRoot env current = .ok root)
    (hl : ParseLevel (final env root c).LogLevel = .ok lv) (hm : ¬ modeConflict env c) :
    Load env current c = (final env root c, none) := by
  rw [Load_of_directOK hd]
  simp only [hr, hl]
  rw [if_neg hm]

/-- The mode error is returned exactly when everything before the mode check
succeeds and the modes conflict. -/
theorem Load_mode_iff (env : Env) (current : Except String OSUser) (c : Settings) :
    (Load env current c).2 = some .mode ↔
      directOK env ∧ (∃ root, certRoot env current = .ok root ∧
        ∃ lv, ParseLevel (final env root c).LogLevel = .ok lv) ∧ modeConflict env c := by
  by_cases hd : directOK env
  · have hL := Load_of_directOK hd current c
    cases hr : certRoot env current with
    | error err =>
      simp only [hr] at hL
      rw [hL]
      obtain ⟨_, cause, _, he⟩ := certRoot_error hr
      subst he
      simp
    | ok root =>
      simp only [hr] at hL
      cases hl : ParseLevel (final env root c).LogLevel with
      | error lvl =>
        simp only [hl] at hL
        rw [hL]
        simp [hl]
      | ok lv =>
        simp only [hl] at hL
        rw [hL]
        by_cases hm : modeConflict env c
        · simp [hm, hd, hl]
        · simp [hm]
  · obtain ⟨e, he⟩ := Load_of_not_directOK hd current c
    rw [he]
    simp [hd]

end LoadCases

/-! ## The claims -/

section Claims

attribute [local irreducible] direct applyDefaults applyCertDefaults resolved checkModes certRoot
  final

theorem ParseLevel_ok {s : String} {lv : Level} (h : ParseLevel s = .ok lv) : s ∈ levelNames := by
  unfold ParseLevel at h
  unfold levelNames
  split_ifs at h <;> simp_all

theorem directOK_of_Process {env : Env} {c : Settings} (h : (Process "RHO" env c).2 = none) :
    directOK env :=
  (fieldOK_RHO_iff env).1 ((Process_none_iff "RHO" env c).1 h)

theorem Process_of_none {env : Env} {c : Settings} (h : (Process "RHO" env c).2 = none) :
    (Process "RHO" env c).1 = direct env c := by
  rw [(Process_RHO env c).1 (directOK_of_Process h)]

/-- C1. Defaults: when all the variables that `Load` reads are unset or empty and
the user lookup succeeds with home directory `h`, `Load` on a zero-valued context
returns no error and leaves the default of every field, the three certificate
paths being `ca.pem`, `cert.pem` and `key.pem` under `.docker` under `h`. -/
theorem Load_defaults (env : Env) (h : String) (hvars : ∀ k ∈ defaultVars, Getenv env k = "") :
    Load env (.ok { HomeDir := h }) Settings.zero =
      ({ Port := 8000, LogLevel := "info", MongoURL := "mongo", AdminName := "", AdminKey := "",
         DockerHost := "unix:///var/run/docker.sock", DockerTLS := false,
         DockerCACert := Join [h, ".docker", "ca.pem"],
         DockerCert := Join [h, ".docker", "cert.pem"],
         DockerKey := Join [h, ".docker", "key.pem"],
         Image := "cloudpipe/runner-py2", Poll := 500, Web := true, Runner := true }, none) := by
  have e1 := hvars "RHO_PORT" (by decide)
  have e2 := hvars "RHO_LOGLEVEL" (by decide)
  have e3 := hvars "RHO_MONGOURL" (by decide)
  have e4 := hvars "RHO_ADMINNAME" (by decide)
  have e5 := hvars "RHO_ADMINKEY" (by decide)
  have e6 := hvars "RHO_POLL" (by decide)
  have e7 := hvars "RHO_DOCKERHOST" (by decide)
  have e8 := hvars "RHO_DOCKERTLS" (by decide)
  have e9 := hvars "RHO_DOCKERCACERT" (by decide)
  have e10 := hvars "RHO_DOCKERCERT" (by decide)
  have e11 := hvars "RHO_DOCKERKEY" (by decide)
  have e12 := hvars "RHO_IMAGE" (by decide)
  have e13 := hvars "RHO_WEB" (by decide)
  have e14 := hvars "RHO_RUNNER" (by decide)
  have e15 := hvars "DOCKER_HOST" (by decide)
  have e16 := hvars "DOCKER_CERT_PATH" (by decide)
  have hd : directOK env := ⟨Or.inl e1, Or.inl e8, Or.inl e6, Or.inl e13, Or.inl e14⟩
  have hr : certRoot env (.ok { HomeDir := h }) = .ok (Join [h, ".docker"]) := by
    rw [certRoot_eq, if_pos e16]
  have hl : ParseLevel (final env (Join [h, ".docker"]) Settings.zero).LogLevel =
      .ok .InfoLevel := by
    rw [final_LogLevel, e2]
    rfl
  have hm : ¬ modeConflict env Settings.zero := fun hc => hc.2.2.1 e13
  rw [Load_of_conditions hd hr hl hm, final_def, e1, e2, e3, e4, e5, e6, e7, e8, e9, e10, e11,
    e12, e13, e14, e15]
  simp only [strOr_empty, intOr_empty, boolOr_empty, Settings.zero, strDefault_empty, Join_Join]
  rfl

/-- C2 (amended). Explicit values win: for every field of `Settings` and every
value of that field's type, if the variable of the field under the prefix `RHO`
is set to the textual form of the value and `Load` on a zero-valued context
returns no error, then the field is exactly that value, except for a zero value
(0, the empty string, false) that `Load` does not keep: the zero value of a
field with a default or a fallback is replaced by it, and a mode set to false is
enabled all the same when the variable of the other mode is unset or empty. -/
theorem Load_explicit_values (env : Env) (current : Except String OSUser) (f : Field) (v : Value)
    (hk : v.kind = f.kind) (hrange : v.inRange)
    (hset : Getenv env (envKey "RHO" f.name) = v.text)
    (hok : (Load env current Settings.zero).2 = none) :
    (Load env current Settings.zero).1.get f = v ↔ (v.isZero → f.zeroKept env) := by
  obtain ⟨hd, root, _, _, hm, hL⟩ := Load_success hok
  rw [hL]
  rw [envKey_RHO] at hset
  have hca : Join [root, "ca.pem"] ≠ "" := Join_pair_ne_empty _ (by decide)
  have hcert : Join [root, "cert.pem"] ≠ "" := Join_pair_ne_empty _ (by decide)
  have hkey : Join [root, "key.pem"] ≠ "" := Join_pair_ne_empty _ (by decide)
  have hhost : strDefault (Getenv env "DOCKER_HOST") "unix:///var/run/docker.sock" ≠ "" :=
    strDefault_ne_empty _ (by decide)
  cases v with
  | int i =>
    cases f <;> simp only [Value.kind, Field.kind, reduceCtorEq] at hk <;>
      (simp only [Field.rhoKey, Value.text] at hset
       simp only [Settings.get, final_Port, final_Poll, hset, Value.int.injEq, Value.isZero,
         Field.zeroKept, intOr_formatInt hrange.1 hrange.2]
       exact intDefault_eq_iff i (by decide))
  | str s =>
    cases f <;> simp only [Value.kind, Field.kind, reduceCtorEq] at hk <;>
      (simp only [Field.rhoKey, Value.text] at hset
       simp only [Settings.get, final_LogLevel, final_MongoURL, final_AdminName, final_AdminKey,
         final_DockerHost, final_DockerCACert, final_DockerCert, final_DockerKey, final_Image,
         hset, Settings.zero, strOr_zero, Value.str.injEq, Value.isZero, Field.zeroKept,
         implies_true] <;>
       first
       | exact strDefault_eq_iff s (by decide)
       | exact strDefault_eq_iff s hhost
       | exact strDefault_eq_iff s hca
       | exact strDefault_eq_iff s hcert
       | exact strDefault_eq_iff s hkey)
  | bool b =>
    unfold modeConflict at hm
    cases f <;> simp only [Value.kind, Field.kind, reduceCtorEq] at hk
    case DockerTLS =>
      simp only [Field.rhoKey, Value.text] at hset
      simp only [Settings.get, final_DockerTLS, hset, boolOr_formatBool, Value.isZero,
        Field.zeroKept, implies_true]
    case Web =>
      simp only [Field.rhoKey, Value.text] at hset
      simp only [Settings.get, final_Web, Settings.zero, Value.bool.injEq, Value.isZero,
        Field.zeroKept]
      exact mode_kept_iff b hset hd.2.2.2.2 hm
    case Runner =>
      simp only [Field.rhoKey, Value.text] at hset
      simp only [Settings.get, final_Runner, Settings.zero, Value.bool.injEq, Value.isZero,
        Field.zeroKept]
      exact mode_kept_iff b hset hd.2.2.2.1
        (fun h => hm ⟨h.2.1, h.1, h.2.2.2, h.2.2.1⟩)

/-- C3. Mode conflict rule: when the direct load, the certificate root and the log
level check succeed, `Load` on a zero-valued context returns the mode error if
and only if the direct load left `Web` and `Runner` false and both `RHO_WEB` and
`RHO_RUNNER` are non-empty; when the direct load left both false and one of the
two variables is unset or empty, `Load` succeeds with both modes enabled. -/
theorem Load_mode_conflict_rule (env : Env) (current : Except String OSUser) (root : String)
    (lv : Level) (hd : (Process "RHO" env Settings.zero).2 = none)
    (hr : certRoot env current = .ok root)
    (hl : ParseLevel (applyDefaults env (Process "RHO" env Settings.zero).1).LogLevel = .ok lv) :
    ((Load env current Settings.zero).2 = some .mode ↔
      ((Process "RHO" env Settings.zero).1.Web = false ∧
        (Process "RHO" env Settings.zero).1.Runner = false ∧
        Getenv env "RHO_WEB" ≠ "" ∧ Getenv env "RHO_RUNNER" ≠ "")) ∧
    ((Process "RHO" env Settings.zero).1.Web = false ∧
        (Process "RHO" env Settings.zero).1.Runner = false ∧
        (Getenv env "RHO_WEB" = "" ∨ Getenv env "RHO_RUNNER" = "") →
      (Load env current Settings.zero).2 = none ∧
        (Load env current Settings.zero).1.Web = true ∧
        (Load env current Settings.zero).1.Runner = true) := by
  have hok := directOK_of_Process hd
  rw [Process_of_none hd] at hl ⊢
  rw [← final_LogLevel_eq env root] at hl
  have hWeb : (direct env Settings.zero).Web = boolOr (Getenv env "RHO_WEB") false :=
    direct_Web env _
  have hRun : (direct env Settings.zero).Runner = boolOr (Getenv env "RHO_RUNNER") false :=
    direct_Runner env _
  have hconf : modeConflict env Settings.zero ↔
      ((direct env Settings.zero).Web = false ∧ (direct env Settings.zero).Runner = false ∧
        Getenv env "RHO_WEB" ≠ "" ∧ Getenv env "RHO_RUNNER" ≠ "") := by
    rw [hWeb, hRun]; unfold modeConflict; rfl
  constructor
  · rw [Load_mode_iff, ← hconf]
    constructor
    · exact fun h => h.2.2
    · exact fun h => ⟨hok, ⟨root, hr, lv, hl⟩, h⟩
  · rintro ⟨hw, hrn, hempty⟩
    have hm : ¬ modeConflict env Settings.zero := by
      rw [hconf]
      rintro ⟨_, _, h1, h2⟩
      rcases hempty with h | h
      · exact h1 h
      · exact h2 h
    rw [Load_of_conditions hok hr hl hm]
    rw [hWeb] at hw
    rw [hRun] at hrn
    refine ⟨rfl, ?_, ?_⟩
    · show (final env root Settings.zero).Web = true
      rw [final_Web]
      show (boolOr (Getenv env "RHO_WEB") false || !boolOr (Getenv env "RHO_RUNNER") false) = true
      rw [hw, hrn]; rfl
    · show (final env root Settings.zero).Runner = true
      rw [final_Runner]
      show (boolOr (Getenv env "RHO_RUNNER") false || !boolOr (Getenv env "RHO_WEB") false) = true
      rw [hw, hrn]; rfl

/-- C4. Mode invariant: for every environment and every starting context,
whenever `Load` returns no error, at least one of `Web` and `Runner` is true in
the resulting settings. -/
theorem Load_mode_invariant (env : Env) (current : Except String OSUser) (c : Settings)
    (h : (Load env current c).2 = none) :
    (Load env current c).1.Web = true ∨ (Load env current c).1.Runner = true := by
  obtain ⟨_, root, _, _, _, hL⟩ := Load_success h
  rw [hL]
  show (final env root c).Web = true ∨ (final env root c).Runner = true
  rw [final_Web, final_Runner]
  cases boolOr (Getenv env "RHO_WEB") c.Web <;> cases boolOr (Getenv env "RHO_RUNNER") c.Runner <;>
    simp

/-- C5. Single explicit mode stands: when `RHO_WEB` is a true-equivalent value and
`RHO_RUNNER` is unset or empty, and nothing else makes `Load` fail (the
variables of the other integer and boolean fields are empty or parse, the
certificate root is found and the log level is recognised), `Load` on a
zero-valued context succeeds with `Web = true` and `Runner = false`; and
symmetrically with the two modes exchanged. -/
theorem Load_single_explicit_mode (env : Env) (current : Except String OSUser) (root : String)
    (lv : Level) (hport : intOK (Getenv env "RHO_PORT")) (hpoll : intOK (Getenv env "RHO_POLL"))
    (htls : boolOK (Getenv env "RHO_DOCKERTLS")) (hr : certRoot env current = .ok root)
    (hl : ParseLevel (strDefault (Getenv env "RHO_LOGLEVEL") "info") = .ok lv) :
    (ParseBool (Getenv env "RHO_WEB") = .ok true → Getenv env "RHO_RUNNER" = "" →
      (Load env current Settings.zero).2 = none ∧
        (Load env current Settings.zero).1.Web = true ∧
        (Load env current Settings.zero).1.Runner = false) ∧
    (ParseBool (Getenv env "RHO_RUNNER") = .ok true → Getenv env "RHO_WEB" = "" →
      (Load env current Settings.zero).2 = none ∧
        (Load env current Settings.zero).1.Web = false ∧
        (Load env current Settings.zero).1.Runner = true) := by
  have hlevel : ParseLevel (final env root Settings.zero).LogLevel = .ok lv := by
    rw [final_LogLevel]
    have : strOr (Getenv env "RHO_LOGLEVEL") Settings.zero.LogLevel = Getenv env "RHO_LOGLEVEL" := by
      unfold strOr; split_ifs with h0
      · rw [h0]; rfl
      · rfl
    rw [this]; exact hl
  have hne : ∀ v, ParseBool v = .ok true → v ≠ "" := by
    rintro v hv rfl
    revert hv
    decide
  have hon : ∀ v cur, ParseBool v = .ok true → boolOr v cur = true := by
    intro v cur hv
    unfold boolOr
    rw [if_neg (hne v hv), hv]
  have hoff : ∀ v, v = "" → boolOr v false = false := by
    rintro v rfl
    rfl
  constructor
  · intro hw hrn
    have hd : directOK env := ⟨hport, htls, hpoll, Or.inr ⟨true, hw⟩, Or.inl hrn⟩
    have hm : ¬ modeConflict env Settings.zero := fun hc => hc.2.2.2 hrn
    rw [Load_of_conditions hd hr hlevel hm]
    refine ⟨rfl, ?_, ?_⟩
    · show (final env root Settings.zero).Web = true
      rw [final_Web, hon _ _ hw]; rfl
    · show (final env root Settings.zero).Runner = false
      rw [final_Runner, hon _ _ hw]
      show (boolOr (Getenv env "RHO_RUNNER") false || !true) = false
      rw [hoff _ hrn]; rfl
  · intro hrn hw
    have hd : directOK env := ⟨hport, htls, hpoll, Or.inl hw, Or.inr ⟨true, hrn⟩⟩
    have hm : ¬ modeConflict env Settings.zero := fun hc => hc.2.2.1 hw
    rw [Load_of_conditions hd hr hlevel hm]
    refine ⟨rfl, ?_, ?_⟩
    · show (final env root Settings.zero).Web = false
      rw [final_Web, hon _ _ hrn]
      show (boolOr (Getenv env "RHO_WEB") false || !true) = false
      rw [hoff _ hw]; rfl
    · show (final env root Settings.zero).Runner = true
      rw [final_Runner, hon _ _ hrn]; rfl

/-- C6. Invalid log level is rejected: when `RHO_LOGLEVEL` is a non-empty string
that the log level parser does not recognise, `Load` returns an error, whatever
the other variables, the outcome of the user lookup and the starting context. -/
theorem Load_invalid_log_level (env : Env) (current : Except String OSUser) (c : Settings)
    (e : String) (hne : Getenv env "RHO_LOGLEVEL" ≠ "")
    (hbad : ParseLevel (Getenv env "RHO_LOGLEVEL") = .error e) :
    (Load env current c).2 ≠ none := by
  intro h
  obtain ⟨_, root, _, ⟨lv, hl⟩, _, _⟩ := Load_success h
  rw [final_LogLevel] at hl
  have h1 : strOr (Getenv env "RHO_LOGLEVEL") c.LogLevel = Getenv env "RHO_LOGLEVEL" := by
    unfold strOr; rw [if_neg hne]
  have h2 : strDefault (Getenv env "RHO_LOGLEVEL") "info" = Getenv env "RHO_LOGLEVEL" := by
    unfold strDefault; rw [if_neg hne]
  rw [h1, h2, hbad] at hl
  cases hl

/-- C7. Log level invariant: whenever `Load` on a zero-valued context returns no
error, the resulting `LogLevel` is one of trace, debug, info, warn, error,
fatal, panic. -/
theorem Load_log_level_invariant (env : Env) (current : Except String OSUser)
    (h : (Load env current Settings.zero).2 = none) :
    (Load env current Settings.zero).1.LogLevel ∈ levelNames := by
  obtain ⟨_, root, _, ⟨lv, hl⟩, _, hL⟩ := Load_success h
  rw [hL]
  exact ParseLevel_ok hl

/-- C8 (amended). Non-zero port and poll: whenever `Load` on a zero-valued context
returns no error, the resulting `Port` and `Poll` are both different from zero:
a port or polling interval that the direct load left at zero is replaced by the
default 8000 or 500, and any other value is kept as it was loaded. -/
theorem Load_port_poll_nonzero (env : Env) (current : Except String OSUser)
    (h : (Load env current Settings.zero).2 = none) :
    (Load env current Settings.zero).1.Port ≠ 0 ∧ (Load env current Settings.zero).1.Poll ≠ 0 ∧
    ((Load env current Settings.zero).1.Port =
      if (Process "RHO" env Settings.zero).1.Port = 0 then 8000
      else (Process "RHO" env Settings.zero).1.Port) ∧
    ((Load env current Settings.zero).1.Poll =
      if (Process "RHO" env Settings.zero).1.Poll = 0 then 500
      else (Process "RHO" env Settings.zero).1.Poll) := by
  obtain ⟨hd, root, _, _, _, hL⟩ := Load_success h
  rw [hL, (Process_RHO env Settings.zero).1 hd]
  show (final env root Settings.zero).Port ≠ 0 ∧ (final env root Settings.zero).Poll ≠ 0 ∧
    ((final env root Settings.zero).Port =
      if (direct env Settings.zero).Port = 0 then 8000 else (direct env Settings.zero).Port) ∧
    ((final env root Settings.zero).Poll =
      if (direct env Settings.zero).Poll = 0 then 500 else (direct env Settings.zero).Poll)
  rw [final_Port, final_Poll, direct_Port, direct_Poll]
  unfold intDefault
  refine ⟨?_, ?_, rfl, rfl⟩ <;> split_ifs with h0 <;> first | decide | exact h0

/-- C9. Docker host precedence: whenever `Load` on a zero-valued context succeeds,
the resolved `DockerHost` is `RHO_DOCKERHOST` if that is non-empty, otherwise
`DOCKER_HOST` if that is non-empty, otherwise `unix:///var/run/docker.sock`. -/
theorem Load_docker_host_precedence (env : Env) (current : Except String OSUser)
    (h : (Load env current Settings.zero).2 = none) :
    (Load env current Settings.zero).1.DockerHost =
      if Getenv env "RHO_DOCKERHOST" ≠ "" then Getenv env "RHO_DOCKERHOST"
      else if Getenv env "DOCKER_HOST" ≠ "" then Getenv env "DOCKER_HOST"
      else "unix:///var/run/docker.sock" := by
  obtain ⟨_, root, _, _, _, hL⟩ := Load_success h
  rw [hL]
  show (final env root Settings.zero).DockerHost = _
  rw [final_DockerHost]
  show strDefault (strOr (Getenv env "RHO_DOCKERHOST") "") _ = _
  unfold strDefault strOr
  split_ifs <;> simp_all

/-- C10. Certificate path defaults: whenever `Load` on a zero-valued context
succeeds, there is a certificate root, which is `DOCKER_CERT_PATH` if that is
non-empty and otherwise `.docker` under the home directory of the current user;
each of `DockerCACert`, `DockerCert`, `DockerKey` whose variable is unset or
empty is `ca.pem`, `cert.pem`, `key.pem` under that root; and when all three are
defaulted they have the same parent directory, the root. -/
theorem Load_cert_path_defaults (env : Env) (current : Except String OSUser)
    (h : (Load env current Settings.zero).2 = none) :
    ∃ root, certRoot env current = .ok root ∧
      (Getenv env "DOCKER_CERT_PATH" ≠ "" → root = Getenv env "DOCKER_CERT_PATH") ∧
      (Getenv env "DOCKER_CERT_PATH" = "" →
        ∃ u, current = .ok u ∧ root = Join [u.HomeDir, ".docker"]) ∧
      (Getenv env "RHO_DOCKERCACERT" = "" →
        (Load env current Settings.zero).1.DockerCACert = Join [root, "ca.pem"]) ∧
      (Getenv env "RHO_DOCKERCERT" = "" →
        (Load env current Settings.zero).1.DockerCert = Join [root, "cert.pem"]) ∧
      (Getenv env "RHO_DOCKERKEY" = "" →
        (Load env current Settings.zero).1.DockerKey = Join [root, "key.pem"]) ∧
      (Getenv env "RHO_DOCKERCACERT" = "" → Getenv env "RHO_DOCKERCERT" = "" →
        Getenv env "RHO_DOCKERKEY" = "" →
        Dir (Load env current Settings.zero).1.DockerCACert = Clean root ∧
        Dir (Load env current Settings.zero).1.DockerCert = Clean root ∧
        Dir (Load env current Settings.zero).1.DockerKey = Clean root) := by
  obtain ⟨_, root, hr, _, _, hL⟩ := Load_success h
  have hne := certRoot_ne_empty hr
  have hca : Getenv env "RHO_DOCKERCACERT" = "" →
      (Load env current Settings.zero).1.DockerCACert = Join [root, "ca.pem"] := by
    intro h0
    rw [hL]
    show (final env root Settings.zero).DockerCACert = _
    rw [final_DockerCACert, h0]
    rfl
  have hcert : Getenv env "RHO_DOCKERCERT" = "" →
      (Load env current Settings.zero).1.DockerCert = Join [root, "cert.pem"] := by
    intro h0
    rw [hL]
    show (final env root Settings.zero).DockerCert = _
    rw [final_DockerCert, h0]
    rfl
  have hkey : Getenv env "RHO_DOCKERKEY" = "" →
      (Load env current Settings.zero).1.DockerKey = Join [root, "key.pem"] := by
    intro h0
    rw [hL]
    show (final env root Settings.zero).DockerKey = _
    rw [final_DockerKey, h0]
    rfl
  refine ⟨root, hr, ?_, ?_, hca, hcert, hkey, ?_⟩
  · intro h1
    rcases certRoot_ok hr with ⟨_, h2⟩ | ⟨h2, _⟩
    · exact h2
    · exact absurd h2 h1
  · intro h1
    rcases certRoot_ok hr with ⟨h2, _⟩ | ⟨_, h2⟩
    · exact absurd h1 h2
    · exact h2
  · intro h1 h2 h3
    rw [hca h1, hcert h2, hkey h3]
    exact ⟨Dir_Join hne (by decide), Dir_Join hne (by decide), Dir_Join hne (by decide)⟩

end Claims

/-! ## Instances of the claims on concrete environments -/

/-- Instance of C1: the test `TestDefaultValues`, with home directory `/home/rho`. -/
theorem Load_defaults_witness :
    (∀ k ∈ defaultVars, Getenv Env.empty k = "") ∧
    Load Env.empty (.ok { HomeDir := "/home/rho" }) Settings.zero =
      ({ Port := 8000, LogLevel := "info", MongoURL := "mongo", AdminName := "", AdminKey := "",
         DockerHost := "unix:///var/run/docker.sock", DockerTLS := false,
         DockerCACert := "/home/rho/.docker/ca.pem",
         DockerCert := "/home/rho/.docker/cert.pem",
         DockerKey := "/home/rho/.docker/key.pem",
         Image := "cloudpipe/runner-py2", Poll := 500, Web := true, Runner := true }, none) :=
  ⟨by decide, (Load_defaults Env.empty "/home/rho" (by decide)).trans (by decide)⟩

/-- C2 fails as stated: with `RHO_PORT` set to the textual form of 0 the resolved
port is the default 8000, with `RHO_IMAGE` set to the empty string the resolved
image is the default, and with `RHO_WEB` set to the textual form of false the
resolved `Web` is true. -/
theorem Load_explicit_values_counterexample :
    (Getenv envZeroPort (envKey "RHO" Field.Port.name) = (Value.int 0).text ∧
      (Load envZeroPort homeUser Settings.zero).2 = none ∧
      (Load envZeroPort homeUser Settings.zero).1.get .Port = .int 8000) ∧
    (Getenv Env.empty (envKey "RHO" Field.Image.name) = (Value.str "").text ∧
      (Load Env.empty homeUser Settings.zero).2 = none ∧
      (Load Env.empty homeUser Settings.zero).1.get .Image = .str "cloudpipe/runner-py2") ∧
    (Getenv envWebOff (envKey "RHO" Field.Web.name) = (Value.bool false).text ∧
      (Load envWebOff homeUser Settings.zero).2 = none ∧
      (Load envWebOff homeUser Settings.zero).1.get .Web = .bool true) := by
  decide

/-- Instance of C2 (amended): with `RHO_WEB=false` and `RHO_RUNNER=true`, the
explicit false of `Web` is kept. -/
theorem Load_explicit_values_witness :
    (Value.bool false).kind = Field.Web.kind ∧ (Value.bool false).inRange ∧
    Getenv envWebOffRunnerOn (envKey "RHO" Field.Web.name) = (Value.bool false).text ∧
    (Load envWebOffRunnerOn homeUser Settings.zero).2 = none ∧
    (Load envWebOffRunnerOn homeUser Settings.zero).1.get .Web = .bool false :=
  ⟨by decide, by decide, by decide, by decide,
    (Load_explicit_values envWebOffRunnerOn homeUser .Web (.bool false) (by decide) (by decide)
      (by decide) (by decide)).2 (by decide)⟩

/-- The port of the test `TestLoadFromEnvironment` is kept. -/
theorem Load_explicit_port :
    (Load envPort homeUser Settings.zero).2 = none ∧
    (Load envPort homeUser Settings.zero).1.get .Port = .int 1234 :=
  ⟨by decide,
    (Load_explicit_values envPort homeUser .Port (.int 1234) (by decide) (by decide)
      (by decide) (by decide)).2 (by decide)⟩

/-- Instance of C3: with `RHO_WEB=false` and `RHO_RUNNER=0`, `Load` returns the
mode error. -/
theorem Load_mode_conflict_rule_witness :
    (Process "RHO" envBothOff Settings.zero).2 = none ∧
    certRoot envBothOff homeUser = .ok "/home/rho/.docker" ∧
    ParseLevel (applyDefaults envBothOff (Process "RHO" envBothOff Settings.zero).1).LogLevel =
      .ok .InfoLevel ∧
    (Load envBothOff homeUser Settings.zero).2 = some .mode :=
  ⟨by decide, by decide, by decide,
    (Load_mode_conflict_rule envBothOff homeUser "/home/rho/.docker" .InfoLevel
      (by decide) (by decide) (by decide)).1.2 (by decide)⟩

/-- Instance of C4 on the empty environment. -/
theorem Load_mode_invariant_witness :
    (Load Env.empty homeUser Settings.zero).2 = none ∧
    ((Load Env.empty homeUser Settings.zero).1.Web = true ∨
      (Load Env.empty homeUser Settings.zero).1.Runner = true) :=
  ⟨by decide, Load_mode_invariant Env.empty homeUser Settings.zero (by decide)⟩

/-- Instance of C5: the test `TestOnlyWeb`. -/
theorem Load_single_explicit_mode_witness :
    ParseBool (Getenv envOnlyWeb "RHO_WEB") = .ok true ∧ Getenv envOnlyWeb "RHO_RUNNER" = "" ∧
    (Load envOnlyWeb homeUser Settings.zero).2 = none ∧
    (Load envOnlyWeb homeUser Settings.zero).1.Web = true ∧
    (Load envOnlyWeb homeUser Settings.zero).1.Runner = false :=
  ⟨by decide, by decide,
    (Load_single_explicit_mode envOnlyWeb homeUser "/home/rho/.docker" .InfoLevel
      (by decide) (by decide) (by decide) (by decide) (by decide)).1 (by decide) (by decide)⟩

/-- Instance of C6: the test `TestValidateLogLevel`. -/
theorem Load_invalid_log_level_witness :
    Getenv envWalrus "RHO_LOGLEVEL" ≠ "" ∧
    ParseLevel (Getenv envWalrus "RHO_LOGLEVEL") = .error "Walrus" ∧
    (Load envWalrus homeUser Settings.zero).2 ≠ none :=
  ⟨by decide, by decide,
    Load_invalid_log_level envWalrus homeUser Settings.zero "Walrus" (by decide) (by decide)⟩

/-- Instance of C7 on an environment that sets the level to `debug`. -/
theorem Load_log_level_invariant_witness :
    (Load (Env.empty.set "RHO_LOGLEVEL" "debug") homeUser Settings.zero).2 = none ∧
    (Load (Env.empty.set "RHO_LOGLEVEL" "debug") homeUser Settings.zero).1.LogLevel ∈
      levelNames :=
  ⟨by decide, Load_log_level_invariant _ homeUser (by decide)⟩

/-- C8 fails as stated: with `RHO_PORT=-1`, `Load` on a zero-valued context
returns no error and the resulting port is -1, which is not strictly positive. -/
theorem Load_port_positive_counterexample :
    (Load envNegativePort homeUser Settings.zero).2 = none ∧
    (Load envNegativePort homeUser Settings.zero).1.Port = -1 ∧
    ¬ (0 < (Load envNegativePort homeUser Settings.zero).1.Port) := by
  decide

/-- Instance of C8 (amended): a port and a polling interval configured as zero
are replaced by the defaults. -/
theorem Load_port_poll_nonzero_witness :
    (Load envZeroPort homeUser Settings.zero).2 = none ∧
    (Load envZeroPort homeUser Settings.zero).1.Port = 8000 ∧
    (Load envZeroPort homeUser Settings.zero).1.Poll = 500 :=
  ⟨by decide,
    (Load_port_poll_nonzero envZeroPort homeUser (by decide)).2.2.1.trans (by decide),
    (Load_port_poll_nonzero envZeroPort homeUser (by decide)).2.2.2.trans (by decide)⟩

/-- Instance of C9: the test `TestUseDockerHost`. -/
theorem Load_docker_host_precedence_witness :
    (Load envDockerHost homeUser Settings.zero).2 = none ∧
    (Load envDockerHost homeUser Settings.zero).1.DockerHost = "tcp://1.2.3.4:4567/" :=
  ⟨by decide, (Load_docker_host_precedence envDockerHost homeUser (by decide)).trans (by decide)⟩

/-- Instance of C10: with `DOCKER_CERT_PATH=/certs` the user lookup is not needed,
and the two certificate paths that are not configured are under `/certs`. -/
theorem Load_cert_path_defaults_witness :
    (Load envCertPath (.error "user: Current not implemented") Settings.zero).2 = none ∧
    (Load envCertPath (.error "user: Current not implemented") Settings.zero).1.DockerCACert =
      "/certs/ca.pem" ∧
    ∃ root, certRoot envCertPath (.error "user: Current not implemented") = .ok root ∧
      (Load envCertPath (.error "user: Current not implemented") Settings.zero).1.DockerCert =
        Join [root, "cert.pem"] := by
  refine ⟨by decide, by decide, ?_⟩
  obtain ⟨root, h1, _, _, _, h2, _⟩ :=
    Load_cert_path_defaults envCertPath (.error "user: Current not implemented") (by decide)
  exact ⟨root, h1, h2 (by decide)⟩

/-! ## The listen address -/

theorem decimalDigits_eq_digits (fuel : Nat) :
    ∀ n, n < fuel → 0 < n →
      decimalDigits fuel n [] = (Nat.digits 10 n).reverse.map digitChar := by
  induction fuel with
  | zero => intro n h; omega
  | succ fuel ih =>
    intro n h hpos
    unfold decimalDigits
    split_ifs with h10
    · rw [Nat.digits_of_lt 10 n (by omega) h10]
      rfl
    · rw [decimalDigits_acc, ih (n / 10) (by omega) (by omega),
        Nat.digits_def' (by norm_num) hpos]
      simp

theorem formatUint_eq_digits {n : Nat} (h : 0 < n) :
    formatUint n = (Nat.digits 10 n).reverse.map digitChar :=
  decimalDigits_eq_digits (n + 1) n (by omega) h

theorem digitChar_eq_digitChar : ∀ d < 10, digitChar d = Nat.digitChar d := by decide

theorem map_digitChar_digits (n : Nat) :
    (Nat.digits 10 n).reverse.map digitChar = (Nat.digits 10 n).reverse.map Nat.digitChar := by
  apply List.map_congr_left
  intro d hd
  exact digitChar_eq_digitChar d (Nat.digits_lt_base (by norm_num) (List.mem_reverse.1 hd))

/-- The digits written for an integer are its decimal representation. -/
theorem formatInt_eq_decimalRepr (p : Int) : formatInt p = decimalRepr p := by
  unfold formatInt decimalRepr
  by_cases h0 : p = 0
  · subst h0; rfl
  · have hpos : 0 < p.natAbs := Int.natAbs_pos.2 h0
    rw [formatUint_eq_digits hpos, if_neg h0, map_digitChar_digits]
    split_ifs <;> rfl

/-- C11. ListenAddr formatting: for every context, whatever its port `p`,
`ListenAddr` returns the string `:` followed by the decimal representation of
`p`, and leaves every field of the settings unchanged; for the port 1234 of the
test `TestAddressString` the string is `:1234`. -/
theorem ListenAddr_format (c : Settings) :
    (ListenAddr c).2 = ":" ++ decimalRepr c.Port ∧ (ListenAddr c).1 = c ∧
    (ListenAddr { Settings.zero with Port := 1234 }).2 = ":1234" := by
  unfold ListenAddr
  rw [formatInt_eq_decimalRepr]
  exact ⟨rfl, rfl, by decide⟩

/-- The listen address of the default port and of a negative port. -/
theorem ListenAddr_examples :
    (ListenAddr { Settings.zero with Port := 8000 }).2 = ":8000" ∧
    (ListenAddr { Settings.zero with Port := -15 }).2 = ":-15" ∧
    (ListenAddr Settings.zero).2 = ":0" ∧
    decimalRepr 1234 = "1234" := by
  refine ⟨by decide, by decide, by decide, ?_⟩
  rw [← formatInt_eq_decimalRepr]
  decide

/-! ## Errors of `Load` -/

theorem final_LogLevel_zero (env : Env) (root : String) :
    (final env root Settings.zero).LogLevel = resolvedLevel env := by
  rw [final_LogLevel]
  unfold resolvedLevel
  show strDefault (strOr (Getenv env "RHO_LOGLEVEL") "") "info" = _
  rw [strOr_zero]

theorem modeConflict_zero_iff {env : Env} (hd : directOK env) :
    modeConflict env Settings.zero ↔ bothDisabled env := by
  unfold modeConflict bothDisabled
  obtain ⟨_, _, _, hw, hr⟩ := hd
  constructor
  · rintro ⟨h1, h2, h3, h4⟩
    rcases boolOK_cases hw with h | ⟨bw, hbw⟩
    · exact absurd h h3
    rcases boolOK_cases hr with h | ⟨br, hbr⟩
    · exact absurd h h4
    rw [boolOr_of_ok hbw] at h1
    rw [boolOr_of_ok hbr] at h2
    rw [hbw, hbr, h1, h2]
    exact ⟨rfl, rfl⟩
  · rintro ⟨h1, h2⟩
    exact ⟨boolOr_of_ok h1 _, boolOr_of_ok h2 _, ParseBool_ne_empty h1, ParseBool_ne_empty h2⟩

section Claims2

attribute [local irreducible] direct applyDefaults applyCertDefaults resolved checkModes certRoot
  final

theorem certRoot_isOk_iff (env : Env) (current : Except String OSUser) :
    (∃ root, certRoot env current = .ok root) ↔
      ¬ (Getenv env "DOCKER_CERT_PATH" = "" ∧ ∃ cause, current = .error cause) := by
  rw [certRoot_eq]
  by_cases h : Getenv env "DOCKER_CERT_PATH" = ""
  · rw [if_pos h]
    cases current with
    | error cause => simp [h]
    | ok u => simp
  · rw [if_neg h]
    simp [h]

/-- C12 (amended). Permissive resolver: `Load` on a zero-valued context returns an
error exactly in one of four situations: the variable of an integer or boolean
field (`RHO_PORT`, `RHO_POLL`, `RHO_DOCKERTLS`, `RHO_WEB`, `RHO_RUNNER`) is not
empty and does not parse; `DOCKER_CERT_PATH` is unset or empty and the current
user cannot be determined; the resolved log level is not recognised; both modes
are explicitly disabled.  Every other input is defaulted or accepted. -/
theorem Load_error_iff (env : Env) (current : Except String OSUser) :
    (Load env current Settings.zero).2 ≠ none ↔
      ¬ directOK env ∨
      (Getenv env "DOCKER_CERT_PATH" = "" ∧ ∃ cause, current = .error cause) ∨
      (∀ lv, ParseLevel (resolvedLevel env) ≠ .ok lv) ∨
      bothDisabled env := by
  constructor
  · intro h
    by_contra hcon
    simp only [not_or, not_not] at hcon
    obtain ⟨hd, hu, hl, hm⟩ := hcon
    obtain ⟨root, hr⟩ := (certRoot_isOk_iff env current).2 hu
    simp only [not_forall, not_not] at hl
    obtain ⟨lv, hlv⟩ := hl
    rw [← final_LogLevel_zero env root] at hlv
    rw [← modeConflict_zero_iff hd] at hm
    rw [Load_of_conditions hd hr hlv hm] at h
    exact h rfl
  · intro h hok
    obtain ⟨hd, root, hr, ⟨lv, hlv⟩, hm, _⟩ := Load_success hok
    rcases h with h | h | h | h
    · exact h hd
    · exact (certRoot_isOk_iff env current).1 ⟨root, hr⟩ h
    · rw [final_LogLevel_zero] at hlv
      exact h lv hlv
    · exact hm ((modeConflict_zero_iff hd).2 h)

end Claims2

/-- C12 fails as stated: with `RHO_PORT=abc`, `Load` returns the conversion error
of the direct load, although the current user is determined, the resolved log
level `info` is recognised and no mode variable is set. -/
theorem Load_permissive_counterexample :
    (Load envBadPort homeUser Settings.zero).2 =
      some (.envconfig { FieldName := "Port", TypeName := "int", Value := "abc" }) ∧
    homeUser = .ok { HomeDir := "/home/rho" } ∧
    ParseLevel (resolvedLevel envBadPort) = .ok .InfoLevel ∧
    Getenv envBadPort "RHO_WEB" = "" ∧ Getenv envBadPort "RHO_RUNNER" = "" := by
  decide

/-! ## Loading twice -/

theorem strDefault_again (v : String) {d : String} (hd : d ≠ "") :
    strDefault (strOr v (strDefault (strOr v "") d)) d = strDefault (strOr v "") d := by
  by_cases hv : v = ""
  · subst hv
    rw [strOr_empty, strOr_empty, strDefault_empty, strDefault_of_ne hd]
  · rw [strOr_of_ne hv, strOr_of_ne hv]

theorem strOr_again (v : String) : strOr v (strOr v "") = strOr v "" := by
  by_cases hv : v = ""
  · subst hv; rfl
  · rw [strOr_of_ne hv, strOr_of_ne hv]

theorem intDefault_ne_zero (i : Int) {d : Int} (hd : d ≠ 0) : intDefault i d ≠ 0 := by
  unfold intDefault
  split_ifs with h
  · exact hd
  · exact h

theorem intDefault_again (v : String) {d : Int} (hd : d ≠ 0) :
    intDefault (intOr v (intDefault (intOr v 0) d)) d = intDefault (intOr v 0) d := by
  unfold intOr
  split_ifs with hv
  · unfold intDefault
    simp [hd]
  · cases ParseInt v 0 intBits with
    | ok i => rfl
    | error e =>
      unfold intDefault
      simp [hd]

theorem boolOr_again (v : String) : boolOr v (boolOr v false) = boolOr v false := by
  unfold boolOr
  split_ifs with hv
  · rfl
  · cases ParseBool v <;> rfl

/-- The modes after a second load, when the first one did not meet a conflict and
the environment holds no lone explicit false. -/
theorem modes_again {env : Env} (hd : directOK env) (hl : ¬ loneFalse env) :
    (boolOr (Getenv env "RHO_WEB")
        (boolOr (Getenv env "RHO_WEB") false || !boolOr (Getenv env "RHO_RUNNER") false) ||
      !boolOr (Getenv env "RHO_RUNNER")
        (boolOr (Getenv env "RHO_RUNNER") false || !boolOr (Getenv env "RHO_WEB") false)) =
      (boolOr (Getenv env "RHO_WEB") false || !boolOr (Getenv env "RHO_RUNNER") false) ∧
    (boolOr (Getenv env "RHO_RUNNER")
        (boolOr (Getenv env "RHO_RUNNER") false || !boolOr (Getenv env "RHO_WEB") false) ||
      !boolOr (Getenv env "RHO_WEB")
        (boolOr (Getenv env "RHO_WEB") false || !boolOr (Getenv env "RHO_RUNNER") false)) =
      (boolOr (Getenv env "RHO_RUNNER") false || !boolOr (Getenv env "RHO_WEB") false) := by
  obtain ⟨_, _, _, hw, hr⟩ := hd
  unfold loneFalse at hl
  rcases boolOK_cases hw with hw0 | ⟨bw, hbw⟩ <;> rcases boolOK_cases hr with hr0 | ⟨br, hbr⟩
  · rw [hw0, hr0]; exact ⟨rfl, rfl⟩
  · rw [hw0] at hl ⊢
    simp only [boolOr_of_ok hbr, boolOr_empty]
    cases br
    · exact absurd (Or.inr ⟨hbr, rfl⟩) hl
    · exact ⟨rfl, rfl⟩
  · rw [hr0] at hl ⊢
    simp only [boolOr_of_ok hbw, boolOr_empty]
    cases bw
    · exact absurd (Or.inl ⟨hbw, rfl⟩) hl
    · exact ⟨rfl, rfl⟩
  · rw [boolOr_of_ok hbw, boolOr_of_ok hbr, boolOr_of_ok hbw, boolOr_of_ok hbr]
    cases bw <;> cases br <;> exact ⟨rfl, rfl⟩

theorem modeConflict_again {env : Env} (hd : directOK env) (c : Settings)
    (hm : ¬ modeConflict env Settings.zero) : ¬ modeConflict env c := by
  rintro ⟨h1, h2, h3, h4⟩
  obtain ⟨_, _, _, hw, hr⟩ := hd
  rcases boolOK_cases hw with h | ⟨bw, hbw⟩
  · exact h3 h
  rcases boolOK_cases hr with h | ⟨br, hbr⟩
  · exact h4 h
  rw [boolOr_of_ok hbw] at h1
  rw [boolOr_of_ok hbr] at h2
  exact hm ⟨by rw [boolOr_of_ok hbw]; exact h1, by rw [boolOr_of_ok hbr]; exact h2, h3, h4⟩

section Claims3

attribute [local irreducible] direct applyDefaults applyCertDefaults resolved checkModes certRoot
  final

/-- The fields other than the modes after a second load. -/
theorem final_again_get (env : Env) (root : String) (f : Field) (hw : f ≠ .Web)
    (hr : f ≠ .Runner) :
    (final env root (final env root Settings.zero)).get f =
      (final env root Settings.zero).get f := by
  have hca : Join [root, "ca.pem"] ≠ "" := Join_pair_ne_empty _ (by decide)
  have hcert : Join [root, "cert.pem"] ≠ "" := Join_pair_ne_empty _ (by decide)
  have hkey : Join [root, "key.pem"] ≠ "" := Join_pair_ne_empty _ (by decide)
  have hhost : strDefault (Getenv env "DOCKER_HOST") "unix:///var/run/docker.sock" ≠ "" :=
    strDefault_ne_empty _ (by decide)
  cases f <;>
    first
    | exact absurd rfl hw
    | exact absurd rfl hr
    | (simp only [Settings.get, final_Port, final_Poll, final_LogLevel, final_MongoURL,
        final_AdminName, final_AdminKey, final_DockerHost, final_DockerTLS, final_DockerCACert,
        final_DockerCert, final_DockerKey, final_Image, Settings.zero]
       first
       | rw [intDefault_again _ (by decide)]
       | rw [strDefault_again _ (by decide)]
       | rw [strDefault_again _ hhost]
       | rw [strDefault_again _ hca]
       | rw [strDefault_again _ hcert]
       | rw [strDefault_again _ hkey]
       | rw [strOr_again]
       | rw [boolOr_again])

/-- C13 (amended). Loading twice: when `Load` on a zero-valued context succeeds
with settings `s`, a second `Load` on the loaded context in the same environment
succeeds too and leaves every field but `Web` and `Runner` as in `s`; it leaves
all of `s` unless the environment holds a lone explicit false. -/
theorem Load_twice (env : Env) (current : Except String OSUser) (s : Settings)
    (h1 : Load env current Settings.zero = (s, none)) :
    (Load env current s).2 = none ∧
    (∀ f, f ≠ .Web → f ≠ .Runner → (Load env current s).1.get f = s.get f) ∧
    (¬ loneFalse env → (Load env current s).1 = s) := by
  have hok : (Load env current Settings.zero).2 = none := by rw [h1]
  obtain ⟨hd, root, hr, ⟨lv, hl⟩, hm, hL⟩ := Load_success hok
  have hs : s = final env root Settings.zero := by
    rw [h1] at hL
    exact (Prod.mk.inj hL).1
  subst hs
  have hlevel : (final env root (final env root Settings.zero)).LogLevel =
      (final env root Settings.zero).LogLevel := by
    have := final_again_get env root .LogLevel (by decide) (by decide)
    simpa only [Settings.get, Value.str.injEq] using this
  have hl2 : ParseLevel (final env root (final env root Settings.zero)).LogLevel = .ok lv := by
    rw [hlevel]; exact hl
  have hm2 := modeConflict_again hd (final env root Settings.zero) hm
  rw [Load_of_conditions hd hr hl2 hm2]
  refine ⟨rfl, fun f hw hrn => final_again_get env root f hw hrn, ?_⟩
  intro hlone
  apply Settings.ext_get
  intro f
  by_cases hw : f = .Web
  · subst hw
    simp only [Settings.get, final_Web, final_Runner, Settings.zero, Value.bool.injEq]
    exact (modes_again hd hlone).1
  by_cases hrn : f = .Runner
  · subst hrn
    simp only [Settings.get, final_Web, final_Runner, Settings.zero, Value.bool.injEq]
    exact (modes_again hd hlone).2
  exact final_again_get env root f hw hrn

end Claims3

/-- C13 fails as stated: with `RHO_WEB=false` alone, the first `Load` enables both
modes, and a second `Load` on the loaded context succeeds with `Web` false. -/
theorem Load_twice_counterexample :
    (Load envWebOff homeUser Settings.zero).2 = none ∧
    (Load envWebOff homeUser Settings.zero).1.Web = true ∧
    (Load envWebOff homeUser (Load envWebOff homeUser Settings.zero).1).2 = none ∧
    (Load envWebOff homeUser (Load envWebOff homeUser Settings.zero).1).1.Web = false ∧
    (Load envWebOff homeUser (Load envWebOff homeUser Settings.zero).1).1 ≠
      (Load envWebOff homeUser Settings.zero).1 := by
  decide

/-- Instance of C13 (amended): loading twice in the environment of the test
`TestOnlyWeb` gives the same settings. -/
theorem Load_twice_witness :
    Load envOnlyWeb homeUser Settings.zero = ((Load envOnlyWeb homeUser Settings.zero).1, none) ∧
    ¬ loneFalse envOnlyWeb ∧
    (Load envOnlyWeb homeUser (Load envOnlyWeb homeUser Settings.zero).1).1 =
      (Load envOnlyWeb homeUser Settings.zero).1 :=
  ⟨by decide, by decide,
    (Load_twice envOnlyWeb homeUser (Load envOnlyWeb homeUser Settings.zero).1
      (by decide)).2.2 (by decide)⟩

/-! ## The user lookup, explicit strings and a lone explicit false -/

section Claims4

attribute [local irreducible] direct applyDefaults applyCertDefaults resolved checkModes certRoot
  final

theorem certRoot_of_path {env : Env} (h : Getenv env "DOCKER_CERT_PATH" ≠ "")
    (current : Except String OSUser) :
    certRoot env current = .ok (Getenv env "DOCKER_CERT_PATH") := by
  rw [certRoot_eq, if_neg h]

/-- C14. OS-user lookup failure: when the direct load succeeds, `Load` returns the
error `Unable to read the current OS user: ...` wrapping a cause if and only if
`DOCKER_CERT_PATH` is unset or empty and the user lookup fails with that cause;
and when `DOCKER_CERT_PATH` is not empty, the outcome of `Load` is the same for
every outcome of the user lookup. -/
theorem Load_user_lookup (env : Env) (current : Except String OSUser) (c : Settings)
    (hd : (Process "RHO" env c).2 = none) :
    (∀ cause, (Load env current c).2 = some (.osUser cause) ↔
      (Getenv env "DOCKER_CERT_PATH" = "" ∧ current = .error cause)) ∧
    (∀ cause, (LoadError.osUser cause).text =
      some ("Unable to read the current OS user: " ++ cause)) ∧
    (Getenv env "DOCKER_CERT_PATH" ≠ "" →
      ∀ other : Except String OSUser, Load env other c = Load env current c) := by
  have hok := directOK_of_Process hd
  refine ⟨?_, fun _ => rfl, ?_⟩
  · intro cause
    have hL := Load_of_directOK hok current c
    cases hr : certRoot env current with
    | error err =>
      simp only [hr] at hL
      obtain ⟨h1, cause2, h2, h3⟩ := certRoot_error hr
      rw [hL, h2, h3]
      simp [h1]
    | ok root =>
      simp only [hr] at hL
      have hno : ¬ (Getenv env "DOCKER_CERT_PATH" = "" ∧ current = .error cause) := by
        rintro ⟨h1, h2⟩
        rw [certRoot_eq, if_pos h1, h2] at hr
        cases hr
      cases hl : ParseLevel (final env root c).LogLevel with
      | error lvl =>
        simp only [hl] at hL
        rw [hL]
        simp [hno]
      | ok lv =>
        simp only [hl] at hL
        rw [hL]
        by_cases hm : modeConflict env c
        · simp [hm, hno]
        · simp [hm, hno]
  · intro hp other
    rw [Load_of_directOK hok, Load_of_directOK hok, certRoot_of_path hp, certRoot_of_path hp]

/-- C15. Fill-if-unset only: when `Load` on a zero-valued context succeeds, every
string-valued field whose variable under the prefix `RHO` is a non-empty string
is exactly that string, which is what the direct load stored: no default or
fallback step changes it. -/
theorem Load_keeps_explicit_strings (env : Env) (current : Except String OSUser) (f : Field)
    (hk : f.kind = .string) (hne : Getenv env (envKey "RHO" f.name) ≠ "")
    (hok : (Load env current Settings.zero).2 = none) :
    (Load env current Settings.zero).1.get f = .str (Getenv env (envKey "RHO" f.name)) ∧
    (Load env current Settings.zero).1.get f = (Process "RHO" env Settings.zero).1.get f := by
  obtain ⟨hd, root, _, _, _, hL⟩ := Load_success hok
  rw [hL, (Process_RHO env Settings.zero).1 hd]
  rw [envKey_RHO] at hne ⊢
  cases f <;> simp only [Field.kind, reduceCtorEq] at hk <;>
    (simp only [Field.rhoKey] at hne ⊢
     simp only [Settings.get, final_LogLevel, final_MongoURL, final_AdminName, final_AdminKey,
       final_DockerHost, final_DockerCACert, final_DockerCert, final_DockerKey, final_Image,
       direct_LogLevel, direct_MongoURL, direct_AdminName, direct_AdminKey, direct_DockerHost,
       direct_DockerCACert, direct_DockerCert, direct_DockerKey, direct_Image,
       strDefault_strOr hne, strOr_of_ne hne, strDefault_of_ne hne, and_self])

/-- C16. Lone explicit false is overridden: when one of `RHO_WEB` and `RHO_RUNNER`
holds a false-equivalent value and the other is unset or empty, and nothing else
makes `Load` fail (the variables of the other integer and boolean fields are
empty or parse, the certificate root is found and the log level is recognised),
`Load` on a zero-valued context succeeds with `Web = true` and `Runner = true`. -/
theorem Load_lone_false_overridden (env : Env) (current : Except String OSUser) (root : String)
    (lv : Level) (hport : intOK (Getenv env "RHO_PORT")) (hpoll : intOK (Getenv env "RHO_POLL"))
    (htls : boolOK (Getenv env "RHO_DOCKERTLS")) (hr : certRoot env current = .ok root)
    (hl : ParseLevel (resolvedLevel env) = .ok lv) (hlone : loneFalse env) :
    (Load env current Settings.zero).2 = none ∧
    (Load env current Settings.zero).1.Web = true ∧
    (Load env current Settings.zero).1.Runner = true := by
  rw [← final_LogLevel_zero env root] at hl
  have hboth : directOK env ∧ ¬ modeConflict env Settings.zero ∧
      boolOr (Getenv env "RHO_WEB") false = false ∧
      boolOr (Getenv env "RHO_RUNNER") false = false := by
    rcases hlone with ⟨hw, hrn⟩ | ⟨hrn, hw⟩
    · exact ⟨⟨hport, htls, hpoll, Or.inr ⟨false, hw⟩, Or.inl hrn⟩, fun hc => hc.2.2.2 hrn,
        boolOr_of_ok hw _, by rw [hrn]; rfl⟩
    · exact ⟨⟨hport, htls, hpoll, Or.inl hw, Or.inr ⟨false, hrn⟩⟩, fun hc => hc.2.2.1 hw,
        by rw [hw]; rfl, boolOr_of_ok hrn _⟩
  obtain ⟨hd, hm, hw, hrn⟩ := hboth
  rw [Load_of_conditions hd hr hl hm]
  refine ⟨rfl, ?_, ?_⟩
  · show (final env root Settings.zero).Web = true
    rw [final_Web]
    show (boolOr (Getenv env "RHO_WEB") false || !boolOr (Getenv env "RHO_RUNNER") false) = true
    rw [hw, hrn]; rfl
  · show (final env root Settings.zero).Runner = true
    rw [final_Runner]
    show (boolOr (Getenv env "RHO_RUNNER") false || !boolOr (Getenv env "RHO_WEB") false) = true
    rw [hw, hrn]; rfl

end Claims4

/-- Instance of C14: in the empty environment a failing user lookup is the error
that `Load` returns. -/
theorem Load_user_lookup_witness :
    (Process "RHO" Env.empty Settings.zero).2 = none ∧
    (Load Env.empty noUser Settings.zero).2 =
      some (.osUser "user: Current not implemented") :=
  ⟨by decide,
    ((Load_user_lookup Env.empty noUser Settings.zero (by decide)).1
      "user: Current not implemented").2 ⟨by decide, rfl⟩⟩

/-- Instance of C15: an explicit Docker host is kept although `DOCKER_HOST` is set. -/
theorem Load_keeps_explicit_strings_witness :
    Field.DockerHost.kind = .string ∧
    Getenv envHostBoth (envKey "RHO" Field.DockerHost.name) ≠ "" ∧
    (Load envHostBoth homeUser Settings.zero).2 = none ∧
    (Load envHostBoth homeUser Settings.zero).1.get .DockerHost = .str "tcp://1.2.3.4:4567/" :=
  ⟨by decide, by decide, by decide,
    (Load_keeps_explicit_strings envHostBoth homeUser .DockerHost (by decide) (by decide)
      (by decide)).1.trans (by decide)⟩

/-- Instance of C16: with `RHO_WEB=false` alone, both modes are enabled. -/
theorem Load_lone_false_overridden_witness :
    loneFalse envWebOff ∧
    (Load envWebOff homeUser Settings.zero).2 = none ∧
    (Load envWebOff homeUser Settings.zero).1.Web = true ∧
    (Load envWebOff homeUser Settings.zero).1.Runner = true :=
  ⟨by decide,
    Load_lone_false_overridden envWebOff homeUser "/home/rho/.docker" .InfoLevel (by decide)
      (by decide) (by decide) (by decide) (by decide) (by decide)⟩

/-! ## The order of the calls of `NewContext` -/

theorem configure_events {σ : Type} (connect : Settings → Except String σ)
    (bootstrap : σ → Option String) (c : Settings) :
    (∀ lvl, ParseLevel c.LogLevel = .error lvl →
      (configure connect bootstrap c).err = some (.parseLevel lvl) ∧
      (configure connect bootstrap c).events = (callOrder c .InfoLevel).take 1) ∧
    (∀ level, ParseLevel c.LogLevel = .ok level →
      (configure connect bootstrap c).events = (callOrder c level).take 3 ∨
      (configure connect bootstrap c).events = callOrder c level) ∧
    (configure connect bootstrap c).c.Settings = c := by
  unfold configure callOrder
  refine ⟨?_, ?_, ?_⟩
  · intro lvl h
    simp only [h]
    refine ⟨?_, ?_⟩ <;> first | rfl | trivial
  · intro level h
    simp only [h]
    cases connect c with
    | error err => left; rfl
    | ok st =>
      simp only
      cases bootstrap st with
      | some err => right; rfl
      | none => right; rfl
  · cases ParseLevel c.LogLevel with
    | error lvl => rfl
    | ok level =>
      simp only
      cases connect c with
      | error err => rfl
      | ok st =>
        simp only
        cases bootstrap st <;> rfl

section Claims5

attribute [local irreducible] direct applyDefaults applyCertDefaults resolved checkModes certRoot
  final

/-- C17. Orchestrator ordering: in every run of `NewContext` the calls made are an
initial part of the sequence summary, `log.SetLevel`, `NewMongoStorage`,
`Storage.Bootstrap`, so the log level is set before any storage call; the log
level is set exactly in the runs in which `Load` succeeded; if `Load` fails,
`NewContext` returns that error and makes no call at all; and if the log level
of the settings fails to parse, the part after `Load` returns that error and
calls neither `NewMongoStorage` nor `Storage.Bootstrap`. -/
theorem NewContext_call_order {σ : Type} (env : Env) (current : Except String OSUser)
    (connect : Settings → Except String σ) (bootstrap : σ → Option String) :
    (∃ level, (NewContext env current connect bootstrap).events <+:
      callOrder (NewContext env current connect bootstrap).c.Settings level) ∧
    ((∃ level, Event.SetLevel level ∈ (NewContext env current connect bootstrap).events) ↔
      (Load env current Settings.zero).2 = none) ∧
    (∀ err, (Load env current Settings.zero).2 = some err →
      (NewContext env current connect bootstrap).err = some (.load err) ∧
      (NewContext env current connect bootstrap).events = []) ∧
    (∀ c lvl, ParseLevel c.LogLevel = .error lvl →
      (configure connect bootstrap c).err = some (.parseLevel lvl) ∧
      Event.NewMongoStorage ∉ (configure connect bootstrap c).events ∧
      Event.Bootstrap ∉ (configure connect bootstrap c).events) := by
  have hlevel : (Load env current Settings.zero).2 = none →
      ∃ level, ParseLevel (Load env current Settings.zero).1.LogLevel = .ok level := by
    intro h
    obtain ⟨_, root, _, hl, _, hL⟩ := Load_success h
    rw [hL]
    exact hl
  unfold NewContext
  generalize Load env current Settings.zero = r at hlevel
  obtain ⟨c, o⟩ := r
  cases o with
  | some err =>
    simp only
    refine ⟨⟨.InfoLevel, List.nil_prefix⟩, ?_, ?_, ?_⟩
    · simp
    · intro e he
      simp only [Option.some.injEq] at he
      subst he
      refine ⟨?_, ?_⟩ <;> first | rfl | trivial
    · intro c2 lvl h
      have := (configure_events connect bootstrap c2).1 lvl h
      rw [this.1, this.2]
      simp [callOrder]
  | none =>
    simp only
    obtain ⟨level, hl⟩ := hlevel rfl
    simp only at hl
    have hev := (configure_events connect bootstrap c).2.1 level hl
    have hc := (configure_events connect bootstrap c).2.2
    refine ⟨⟨level, ?_⟩, ?_, ?_, ?_⟩
    · rw [hc]
      rcases hev with h | h
      · rw [h]; exact List.take_prefix _ _
      · rw [h]
    · simp only [iff_true]
      refine ⟨level, ?_⟩
      rcases hev with h | h <;> rw [h] <;> simp [callOrder]
    · intro e he
      simp at he
    · intro c2 lvl h
      have := (configure_events connect bootstrap c2).1 lvl h
      rw [this.1, this.2]
      simp [callOrder]

end Claims5

/-- Instance of C17: when the log level does not parse, `Load` fails and
`NewContext` returns its error without any call. -/
theorem NewContext_call_order_witness :
    (Load envWalrus homeUser Settings.zero).2 = some (.logLevel "Walrus") ∧
    (NewContext envWalrus homeUser connectOK bootstrapOK).err =
      some (.load (.logLevel "Walrus")) ∧
    (NewContext envWalrus homeUser connectOK bootstrapOK).events = [] :=
  ⟨by decide,
    (NewContext_call_order envWalrus homeUser connectOK bootstrapOK).2.2.1 _ (by decide)⟩

/-- A run of `NewContext` in the empty environment makes the four calls in order. -/
theorem NewContext_empty_events :
    (NewContext Env.empty homeUser connectOK bootstrapOK).events =
      [.Info 8000 "info" "mongo" "", .SetLevel .InfoLevel, .NewMongoStorage, .Bootstrap] ∧
    (NewContext Env.empty homeUser connectOK bootstrapOK).err = none := by
  decide

end Cloudpipe
